import Mathlib

/-!
Verification development for the SQL-Chatbot repository.

The development shallowly embeds the algorithmic core of the repository:
the lexical scorer and hybrid retriever of the RAG service, the SQL
cleaning / fallback / retry machinery of the chat-SQL route, the dialect
router, the schema introspector's control flow, and the column-name
sanitizers.  Strings are modelled as `List Char`; JavaScript
`toLowerCase` and the case-insensitive regex flag are modelled by ASCII
case folding (the only case-carrying characters relevant to the embedded
patterns are ASCII); floating-point scores are modelled by rationals.
External collaborators (the generative provider, the two database
engines, JSON parsing of stored metadata) are modelled as explicit
environment functions or as `Option`/`Except` values carried by the data,
as the spec treats them as opaque collaborators.
-/

/-- ASCII uppercase test (`A`–`Z`), the case-relevant fragment of JS case
folding. -/
def isAsciiUpper (c : Char) : Bool :=
  65 ≤ c.toNat && c.toNat ≤ 90

/-- ASCII case folding; models `toLowerCase` / the regex `i` flag on the
ASCII patterns used by the source (`select`, table names, hints). -/
def lowerChar (c : Char) : Char :=
  if isAsciiUpper c then Char.ofNat (c.toNat + 32) else c

/-- Case-folded character list, the model of `s.toLowerCase()`. -/
def lowerList (s : List Char) : List Char :=
  s.map lowerChar

/-- Word character of the JS regex class `\w`, i.e. `[A-Za-z0-9_]`. -/
def isWordChar (c : Char) : Bool :=
  (97 ≤ c.toNat && c.toNat ≤ 122) || (65 ≤ c.toNat && c.toNat ≤ 90) ||
    (48 ≤ c.toNat && c.toNat ≤ 57) || c = '_'

/-- Hangul syllable range `가-힣` (U+AC00–U+D7A3) used by the source regexes. -/
def isHangulSyllable (c : Char) : Bool :=
  0xAC00 ≤ c.toNat && c.toNat ≤ 0xD7A3

/-- Hangul compatibility jamo range `ㄱ-ㅣ` (U+3131–U+3163). -/
def isHangulJamo (c : Char) : Bool :=
  0x3131 ≤ c.toNat && c.toNat ≤ 0x3163

/-- Occurrence of `needle` as a contiguous run of `hay`; models JS
`String.prototype.includes`. -/
def occursIn (needle hay : List Char) : Bool :=
  (List.range (hay.length + 1)).any fun i => needle.isPrefixOf (hay.drop i)

/-- Case-folded occurrence test, for the case-insensitive source checks. -/
def occursInCI (needle hay : List Char) : Bool :=
  occursIn (lowerList needle) (lowerList hay)

theorem length_dropWhile_le (p : Char → Bool) (l : List Char) :
    (l.dropWhile p).length ≤ l.length := by
  induction l with
  | nil => simp
  | cons c cs ih =>
    by_cases h : p c
    · simp [List.dropWhile_cons, h]
      omega
    · simp [List.dropWhile_cons, h]

namespace RagVector

/-- Search result record of the retriever (`SearchResult` in the source);
the floating-point score is modelled as a rational. -/
structure SearchResult where
  chunkId : Nat
  documentId : Nat
  documentName : String
  content : String
  pageNumber : Option Nat
  score : ℚ
deriving DecidableEq, Repr

/-- Stable descending insertion: the inserted element goes after every
earlier element of score ≥ its own, matching the stable JS
`sort((a, b) => b.score - a.score)`. -/
def insertDesc (x : SearchResult) : List SearchResult → List SearchResult
  | [] => [x]
  | y :: ys => if y.score < x.score then x :: y :: ys else y :: insertDesc x ys

/-- Stable descending sort by score, the model of the JS sort call. -/
def sortByScoreDesc (l : List SearchResult) : List SearchResult :=
  l.foldl (fun acc x => insertDesc x acc) []

/-- Score floor test of the hybrid regime: keep results with score above
`0.1` (`r.score > 0.1` in the source). -/
def aboveFloor (r : SearchResult) : Bool :=
  (1 : ℚ)/10 < r.score

/-- Ranking stage of `hybridSearch` in the hybrid (vector) regime, as the
source writes it: sort descending, truncate to `topK`, then filter at the
`0.1` floor. -/
def hybridSearchRanking (scored : List SearchResult) (topK : Nat) : List SearchResult :=
  ((sortByScoreDesc scored).take topK).filter aboveFloor

/-- Modelled from the spec's words for comparison with the source order of
operations: filter at the `0.1` floor first, then truncate to `topK`. -/
def hybridSearchRankingSpec (scored : List SearchResult) (topK : Nat) : List SearchResult :=
  ((sortByScoreDesc scored).filter aboveFloor).take topK

/-- Descending sortedness by score. -/
def SortedDesc (l : List SearchResult) : Prop :=
  l.Pairwise fun a b => b.score ≤ a.score

theorem mem_insertDesc {z x : SearchResult} {l : List SearchResult} :
    z ∈ insertDesc x l ↔ z = x ∨ z ∈ l := by
  induction l with
  | nil => simp [insertDesc]
  | cons y ys ih =>
    by_cases h : y.score < x.score
    · simp [insertDesc, h]
    · simp [insertDesc, h, ih]
      tauto

theorem sortedDesc_insertDesc (x : SearchResult) (l : List SearchResult)
    (h : SortedDesc l) : SortedDesc (insertDesc x l) := by
  induction l with
  | nil => simp [insertDesc, SortedDesc]
  | cons y ys ih =>
    rcases (List.pairwise_cons.mp h) with ⟨hy, hys⟩
    by_cases hxy : y.score < x.score
    · show SortedDesc (if y.score < x.score then x :: y :: ys else y :: insertDesc x ys)
      rw [if_pos hxy]
      refine List.pairwise_cons.mpr ⟨?_, h⟩
      intro z hz
      rcases List.mem_cons.mp hz with rfl | hz
      · exact le_of_lt hxy
      · exact le_trans (hy z hz) (le_of_lt hxy)
    · show SortedDesc (if y.score < x.score then x :: y :: ys else y :: insertDesc x ys)
      rw [if_neg hxy]
      refine List.pairwise_cons.mpr ⟨?_, ih hys⟩
      intro z hz
      rcases mem_insertDesc.mp hz with rfl | hz
      · exact le_of_not_lt hxy
      · exact hy z hz

theorem sortedDesc_sortByScoreDesc (l : List SearchResult) :
    SortedDesc (sortByScoreDesc l) := by
  have key : ∀ (acc : List SearchResult), SortedDesc acc →
      SortedDesc (l.foldl (fun acc x => insertDesc x acc) acc) := by
    induction l with
    | nil => intro acc h; simpa using h
    | cons x xs ih =>
      intro acc h
      exact ih _ (sortedDesc_insertDesc x acc h)
  exact key [] (by simp [SortedDesc])

theorem filter_take_of_sortedDesc (l : List SearchResult) (h : SortedDesc l) :
    ∀ k, (l.take k).filter aboveFloor = (l.filter aboveFloor).take k := by
  induction l with
  | nil => intro k; simp
  | cons x xs ih =>
    intro k
    rcases (List.pairwise_cons.mp h) with ⟨hx, hxs⟩
    cases k with
    | zero => simp
    | succ k =>
      by_cases hpx : aboveFloor x
      · simp [List.take_succ_cons, List.filter_cons, hpx, ih hxs k]
      · have hall : ∀ y ∈ xs, ¬ (aboveFloor y = true) := by
          intro y hy
          have h1 : y.score ≤ x.score := hx y hy
          have h2 : ¬ ((1 : ℚ)/10 < x.score) := by
            simpa [aboveFloor] using hpx
          have h3 : ¬ ((1 : ℚ)/10 < y.score) := fun hc => h2 (lt_of_lt_of_le hc h1)
          simpa [aboveFloor] using h3
        have hfilter_xs : xs.filter aboveFloor = [] :=
          List.filter_eq_nil_iff.mpr hall
        have htake : (xs.take k).filter aboveFloor = [] :=
          List.filter_eq_nil_iff.mpr (fun y hy => hall y (List.take_subset k xs hy))
        simp [List.take_succ_cons, List.filter_cons, hpx, htake, hfilter_xs]

/-- C4: in the hybrid scoring regime the result list equals the list
obtained by filtering out scores ≤ 0.1 from the descending-sorted scored
list and then truncating to `topK`: on a descending-sorted list, the
source's truncate-then-filter order coincides with the spec's
filter-then-truncate order. -/
theorem hybridSearchRanking_eq_spec (scored : List SearchResult) (topK : Nat) :
    hybridSearchRanking scored topK = hybridSearchRankingSpec scored topK := by
  unfold hybridSearchRanking hybridSearchRankingSpec
  exact filter_take_of_sortedDesc _ (sortedDesc_sortByScoreDesc scored) topK

end RagVector

namespace RagService

/-- Token character of the RAG tokenizer: kept by the regex replacement
`[^\w\s가-힣] → space`, i.e. a word character or a Hangul syllable. -/
def isTokenChar (c : Char) : Bool :=
  isWordChar c || isHangulSyllable c

/-- Maximal runs of token characters; models replacing every other
non-whitespace character with a space and splitting on whitespace runs. -/
def splitRuns : List Char → List (List Char)
  | [] => []
  | c :: cs =>
    if isTokenChar c then
      (c :: cs.takeWhile isTokenChar) :: splitRuns (cs.dropWhile isTokenChar)
    else
      splitRuns cs
termination_by s => s.length
decreasing_by
  · have := length_dropWhile_le isTokenChar cs
    simp
    omega
  · simp

/-- Tokenizer of the RAG service: lowercase, keep word/Hangul runs, and
keep only tokens of length at least 2. -/
def tokenize (s : List Char) : List (List Char) :=
  (splitRuns (lowerList s)).filter fun t => 2 ≤ t.length

/-- Contribution of one query-token/content-token pair: 1 for an exact
match, 1/2 when one token contains the other (checked only when they are
not equal), 0 otherwise — the body of the nested scoring loops. -/
def pairContribution (queryToken contentToken : List Char) : ℚ :=
  if contentToken = queryToken then 1
  else if occursIn queryToken contentToken || occursIn contentToken queryToken then 1/2
  else 0

/-- Accumulated match score, mirroring the nested `for` loops of
`hybridSearch`'s per-chunk scoring. -/
def matchScore (queryTokens contentTokens : List (List Char)) : ℚ :=
  queryTokens.foldl
    (fun acc q => contentTokens.foldl (fun acc2 c => acc2 + pairContribution q c) acc) 0

/-- Modelled from the spec's words: the raw score as a double sum of the
per-pair contributions. -/
def matchScoreSpec (queryTokens contentTokens : List (List Char)) : ℚ :=
  (queryTokens.map fun q => ((contentTokens.map (pairContribution q)).sum)).sum

/-- Normalized per-chunk score:
`min(matchScore / max(queryTokens.length, 1), 1.0)`. -/
def chunkScore (query content : List Char) : ℚ :=
  min (matchScore (tokenize query) (tokenize content) /
    max (((tokenize query).length : ℚ)) 1) 1

theorem foldl_add_map_sum (f : List Char → ℚ) (l : List (List Char)) (init : ℚ) :
    l.foldl (fun a x => a + f x) init = init + (l.map f).sum := by
  induction l generalizing init with
  | nil => simp
  | cons x xs ih =>
    simp [List.foldl_cons, ih, add_assoc]

theorem foldl_outer_sum (contentTokens : List (List Char)) :
    ∀ (queryTokens : List (List Char)) (init : ℚ),
      queryTokens.foldl
        (fun acc q => contentTokens.foldl (fun acc2 c => acc2 + pairContribution q c) acc) init =
      init + (queryTokens.map fun q => ((contentTokens.map (pairContribution q)).sum)).sum := by
  intro queryTokens
  induction queryTokens with
  | nil => intro init; simp
  | cons q qs ih =>
    intro init
    simp only [List.foldl_cons, List.map_cons, List.sum_cons]
    rw [foldl_add_map_sum (pairContribution q) contentTokens init, ih]
    ring

theorem matchScore_eq_spec (queryTokens contentTokens : List (List Char)) :
    matchScore queryTokens contentTokens = matchScoreSpec queryTokens contentTokens := by
  unfold matchScore matchScoreSpec
  rw [foldl_outer_sum contentTokens queryTokens 0]
  ring

theorem pairContribution_nonneg (q c : List Char) : 0 ≤ pairContribution q c := by
  unfold pairContribution
  split
  · norm_num
  · split <;> norm_num

theorem matchScore_nonneg (qs cs : List (List Char)) : 0 ≤ matchScore qs cs := by
  rw [matchScore_eq_spec]
  unfold matchScoreSpec
  apply List.sum_nonneg
  intro x hx
  rcases List.mem_map.mp hx with ⟨q, _, rfl⟩
  apply List.sum_nonneg
  intro y hy
  rcases List.mem_map.mp hy with ⟨c, _, rfl⟩
  exact pairContribution_nonneg q c

/-- C5: the lexical score equals `min(rawScore / max(queryTokenCount, 1), 1)`
with the raw score the double sum of per-pair contributions (1 for equal
tokens, 1/2 for a containment that is not an equality), and the score
always lies in `[0, 1]`. -/
theorem chunkScore_spec (query content : List Char) :
    chunkScore query content =
      min (matchScoreSpec (tokenize query) (tokenize content) /
        max (((tokenize query).length : ℚ)) 1) 1 ∧
    0 ≤ chunkScore query content ∧ chunkScore query content ≤ 1 := by
  refine ⟨by rw [chunkScore, matchScore_eq_spec], ?_, ?_⟩
  · apply le_min
    · apply div_nonneg (matchScore_nonneg _ _)
      have h1 : (1 : ℚ) ≤ max (((tokenize query).length : ℚ)) 1 := le_max_right _ _
      linarith
    · norm_num
  · exact min_le_right _ _

end RagService

/-- State-passing helper for underscore collapsing: the flag records
whether the previous kept character was an underscore, so the head of an
underscore run is kept and the rest of the run dropped. -/
def collapseUnderscoresAux : Bool → List Char → List Char
  | _, [] => []
  | prevUnderscore, c :: cs =>
    if c = '_' then
      if prevUnderscore then collapseUnderscoresAux true cs
      else '_' :: collapseUnderscoresAux true cs
    else c :: collapseUnderscoresAux false cs

/-- Collapse every run of underscores to a single underscore: the
`replace(/_+/g, '_')` step shared by both sanitizers. -/
def collapseUnderscores (s : List Char) : List Char :=
  collapseUnderscoresAux false s

/-- Drop a single leading underscore, half of `replace(/^_|_$/g, '')`. -/
def dropLeadUnderscore (s : List Char) : List Char :=
  match s with
  | '_' :: rest => rest
  | _ => s

/-- Drop a single trailing underscore, the other half of
`replace(/^_|_$/g, '')`. -/
def dropTrailUnderscore (s : List Char) : List Char :=
  if s.getLast? = some '_' then s.dropLast else s

/-- The `replace(/^_|_$/g, '')` trimming step shared by both sanitizers. -/
def trimEdgeUnderscores (s : List Char) : List Char :=
  dropTrailUnderscore (dropLeadUnderscore s)

namespace Routes

/-- Characters kept by the schema introspector's sanitizer, the class
`[가-힣ㄱ-ㅣa-zA-Z0-9_]` of `sanitizeDuckdbColumnName`. -/
def keepDuckdbColChar (c : Char) : Bool :=
  isHangulSyllable c || isHangulJamo c ||
    ('a' ≤ c && c ≤ 'z') || ('A' ≤ c && c ≤ 'Z') || ('0' ≤ c && c ≤ '9') || c = '_'

/-- Column-name sanitizer used by the schema introspector in `routes.ts`:
fold characters outside its keep class to underscore, collapse underscore
runs, trim edge underscores, and fall back to `col_<index>` when empty.
Note: no lowercasing, and Hangul characters are kept. -/
def sanitizeDuckdbColumnName (name : List Char) (index : Nat) : List Char :=
  let sanitized := trimEdgeUnderscores (collapseUnderscores
    (name.map fun c => if keepDuckdbColChar c then c else '_'))
  if sanitized = [] then ("col_" ++ toString index).toList else sanitized

end Routes

namespace DuckdbService

/-- Characters kept by the analytic engine's sanitizer, the class
`[a-z0-9_]` of `sanitizeColumnName` (applied after lowercasing). -/
def keepColChar (c : Char) : Bool :=
  ('a' ≤ c && c ≤ 'z') || ('0' ≤ c && c ≤ '9') || c = '_'

/-- Column-name sanitizer of `duckdb-service.ts`: lowercase, fold
characters outside `[a-z0-9_]` to underscore, collapse underscore runs,
trim edge underscores, and fall back to `col` when empty. -/
def sanitizeColumnName (name : List Char) : List Char :=
  let sanitized := trimEdgeUnderscores (collapseUnderscores
    ((lowerList name).map fun c => if keepColChar c then c else '_'))
  if sanitized = [] then "col".toList else sanitized

end DuckdbService

/-- C7: the two sanitizers disagree. On the Hangul column name `가격` the
schema introspector keeps the Hangul characters while the engine's own
sanitizer folds them away and falls back to `col`, so generated queries
would reference a column identifier that the engine never created; the
same divergence occurs for any name with an uppercase ASCII letter. -/
theorem sanitizeDuckdbColumnName_ne_sanitizeColumnName :
    Routes.sanitizeDuckdbColumnName "가격".toList 0 = "가격".toList ∧
    DuckdbService.sanitizeColumnName "가격".toList = "col".toList ∧
    Routes.sanitizeDuckdbColumnName "Price".toList 0 = "Price".toList ∧
    DuckdbService.sanitizeColumnName "Price".toList = "price".toList ∧
    Routes.sanitizeDuckdbColumnName "가격".toList 0 ≠
      DuckdbService.sanitizeColumnName "가격".toList ∧
    Routes.sanitizeDuckdbColumnName "Price".toList 0 ≠
      DuckdbService.sanitizeColumnName "Price".toList := by
  decide

namespace Routes

/-- Backtick character (U+0060). -/
def backtickChar : Char := Char.ofNat 96

/-- Test for the six-character case-insensitive fence marker removed by
`replace(/```sql/gi, "")`. -/
def isFenceSqlSix (c1 c2 c3 c4 c5 c6 : Char) : Bool :=
  c1 = backtickChar && c2 = backtickChar && c3 = backtickChar &&
    lowerChar c4 = 's' && lowerChar c5 = 'q' && lowerChar c6 = 'l'

/-- Left-to-right deletion of every occurrence of the case-insensitive
fence marker, the model of `replace(/```sql/gi, "")`. -/
def stripFenceSql : List Char → List Char
  | c1 :: c2 :: c3 :: c4 :: c5 :: c6 :: rest =>
    if isFenceSqlSix c1 c2 c3 c4 c5 c6 then stripFenceSql rest
    else c1 :: stripFenceSql (c2 :: c3 :: c4 :: c5 :: c6 :: rest)
  | c :: rest => c :: stripFenceSql rest
  | [] => []

/-- Test for a leading triple backtick. -/
def isFenceThree (c1 c2 c3 : Char) : Bool :=
  c1 = backtickChar && c2 = backtickChar && c3 = backtickChar

/-- Left-to-right deletion of every triple backtick, the model of
`replace(/```/g, "")`. -/
def stripFenceThree : List Char → List Char
  | c1 :: c2 :: c3 :: rest =>
    if isFenceThree c1 c2 c3 then stripFenceThree rest
    else c1 :: stripFenceThree (c2 :: c3 :: rest)
  | c :: rest => c :: stripFenceThree rest
  | [] => []

/-- Whitespace in the sense of JS `trim` and the `\s` class (the code
points that can occur around the embedded SQL text). -/
def isJsWhitespace (c : Char) : Bool :=
  c.toNat = 9 || c.toNat = 10 || c.toNat = 11 || c.toNat = 12 || c.toNat = 13 ||
    c.toNat = 32 || c.toNat = 160 || c.toNat = 0x2028 || c.toNat = 0x2029 || c.toNat = 0xFEFF

/-- Left trim: drop leading whitespace. -/
def trimL (s : List Char) : List Char :=
  s.dropWhile isJsWhitespace

/-- Right trim: drop trailing whitespace (structural formulation). -/
def trimR : List Char → List Char
  | [] => []
  | c :: cs =>
    if trimR cs = [] && isJsWhitespace c then [] else c :: trimR cs

/-- JS `trim`: drop whitespace at both ends. -/
def trim (s : List Char) : List Char :=
  trimR (trimL s)

/-- Test whether the list starts (case-insensitively) with `select`; the
anchor test of the `SELECT[\s\S]*?(?:;|$)/i` match and of the validity
check `startsWith('select')`. -/
def isSelectStart (s : List Char) : Bool :=
  lowerList (s.take 6) = "select".toList

/-- Suffix of the text beginning at the first case-insensitive `select`
occurrence, if any — the position where the SQL-extraction regex first
matches. -/
def findSelectSuffix : List Char → Option (List Char)
  | [] => none
  | c :: cs => if isSelectStart (c :: cs) then some (c :: cs) else findSelectSuffix cs

/-- Take characters up to and including the first statement terminator;
the whole list when none occurs — the lazy `[\s\S]*?(?:;|$)` extent. -/
def takeThroughSemi : List Char → List Char
  | [] => []
  | c :: cs => if c = ';' then [c] else c :: takeThroughSemi cs

/-- Drop one trailing semicolon, the `replace(/;$/, '')` step. -/
def dropLastSemi (s : List Char) : List Char :=
  if s.getLast? = some ';' then s.dropLast else s

/-- Fence-stripped and trimmed text, the local `cleaned` value of
`cleanSql` before SQL extraction. -/
def stripAndTrim (s : List Char) : List Char :=
  trim (stripFenceThree (stripFenceSql s))

/-- The `cleanSql` routine of `routes.ts`: strip fences, trim, extract the
first `SELECT ... (; | end)` run and drop its trailing terminator; when no
run is found, return the stripped trimmed text unchanged. -/
def cleanSql (s : List Char) : List Char :=
  let cleaned := stripAndTrim s
  match findSelectSuffix cleaned with
  | some suffix => dropLastSemi (takeThroughSemi suffix)
  | none => cleaned

end Routes

namespace Routes

/-- Presence of a triple backtick anywhere in the text. -/
def hasTriple : List Char → Bool
  | c1 :: c2 :: c3 :: rest =>
    if isFenceThree c1 c2 c3 then true else hasTriple (c2 :: c3 :: rest)
  | _ => false

theorem hasTriple_cons_false {c : Char} {t : List Char}
    (h : hasTriple (c :: t) = false) : hasTriple t = false := by
  cases t with
  | nil => simp [hasTriple]
  | cons d t2 =>
    cases t2 with
    | nil => simp [hasTriple]
    | cons e t3 =>
      by_cases hf : isFenceThree c d e = true
      · rw [hasTriple, if_pos hf] at h
        exact absurd h (by simp)
      · rw [hasTriple, if_neg hf] at h
        exact h

theorem hasTriple_cons_true {c : Char} {t : List Char}
    (h : hasTriple t = true) : hasTriple (c :: t) = true := by
  cases hct : hasTriple (c :: t) with
  | true => rfl
  | false => rw [hasTriple_cons_false hct] at h; exact absurd h (by simp)

theorem hasTriple_of_decomp (l r : List Char) :
    hasTriple (l ++ backtickChar :: backtickChar :: backtickChar :: r) = true := by
  induction l with
  | nil => simp [hasTriple, isFenceThree]
  | cons c l ih => exact hasTriple_cons_true (by simpa using ih)

theorem exists_decomp_of_hasTriple :
    ∀ t : List Char, hasTriple t = true →
      ∃ l r, t = l ++ backtickChar :: backtickChar :: backtickChar :: r := by
  intro t
  induction t using hasTriple.induct with
  | case1 c1 c2 c3 rest hf =>
    intro _
    have hb := hf
    simp [isFenceThree] at hb
    exact ⟨[], rest, by simp [hb.1.1, hb.1.2, hb.2]⟩
  | case2 c1 c2 c3 rest hf ih =>
    intro h
    rw [hasTriple, if_neg hf] at h
    rcases ih h with ⟨l, r, hlr⟩
    exact ⟨c1 :: l, r, by simp [hlr]⟩
  | case3 t2 hshort =>
    intro h
    rcases t2 with _ | ⟨a, _ | ⟨b, _ | ⟨c, t4⟩⟩⟩
    · simp [hasTriple] at h
    · simp [hasTriple] at h
    · simp [hasTriple] at h
    · exact (hshort a b c t4 rfl).elim

theorem hasTriple_infix {a b t : List Char}
    (h : hasTriple (a ++ t ++ b) = false) : hasTriple t = false := by
  cases hT : hasTriple t with
  | false => rfl
  | true =>
    rcases exists_decomp_of_hasTriple t hT with ⟨l, r, rfl⟩
    have : hasTriple ((a ++ l) ++ backtickChar :: backtickChar :: backtickChar :: (r ++ b))
        = true := hasTriple_of_decomp _ _
    rw [show (a ++ l) ++ backtickChar :: backtickChar :: backtickChar :: (r ++ b) =
      a ++ (l ++ backtickChar :: backtickChar :: backtickChar :: r) ++ b by simp] at this
    rw [this] at h
    exact absurd h (by simp)

theorem stripFenceThree_short (c : Char) (rest : List Char)
    (hshort : ∀ c2 c3 r, rest = c2 :: c3 :: r → False) :
    stripFenceThree (c :: rest) = c :: stripFenceThree rest := by
  cases rest with
  | nil => simp [stripFenceThree]
  | cons d rest2 =>
    cases rest2 with
    | nil => simp [stripFenceThree]
    | cons e r3 => exact (hshort d e r3 rfl).elim

theorem stripFenceSql_short (c : Char) (rest : List Char)
    (hshort : ∀ c2 c3 c4 c5 c6 r, rest = c2 :: c3 :: c4 :: c5 :: c6 :: r → False) :
    stripFenceSql (c :: rest) = c :: stripFenceSql rest := by
  rcases rest with _ | ⟨d1, _ | ⟨d2, _ | ⟨d3, _ | ⟨d4, _ | ⟨d5, r⟩⟩⟩⟩⟩
  · simp [stripFenceSql]
  · simp [stripFenceSql]
  · simp [stripFenceSql]
  · simp [stripFenceSql]
  · simp [stripFenceSql]
  · exact (hshort d1 d2 d3 d4 d5 r rfl).elim

theorem stripFenceThree_head :
    ∀ s : List Char, (stripFenceThree s).head? = some backtickChar →
      s.head? = some backtickChar := by
  intro s
  induction s using stripFenceThree.induct with
  | case1 c1 c2 c3 rest hf ih =>
    intro _
    have hb := hf
    simp [isFenceThree] at hb
    simp [hb.1.1]
  | case2 c1 c2 c3 rest hf ih =>
    intro h
    rw [stripFenceThree, if_neg hf] at h
    simpa using h
  | case3 c rest hshort ih =>
    intro h
    rw [stripFenceThree_short c rest hshort] at h
    simpa using h
  | case4 =>
    intro h
    simp [stripFenceThree] at h

theorem take_one_eq_head {l : List Char} {x : Char} :
    l.take 1 = [x] ↔ l.head? = some x := by
  cases l <;> simp

theorem stripFenceThree_take2 :
    ∀ s : List Char, (stripFenceThree s).take 2 = [backtickChar, backtickChar] →
      s.take 2 = [backtickChar, backtickChar] := by
  intro s
  induction s using stripFenceThree.induct with
  | case1 c1 c2 c3 rest hf ih =>
    intro _
    have hb := hf
    simp [isFenceThree] at hb
    simp [hb.1.1, hb.1.2]
  | case2 c1 c2 c3 rest hf ih =>
    intro h
    rw [stripFenceThree, if_neg hf] at h
    have h1 : c1 = backtickChar ∧
        (stripFenceThree (c2 :: c3 :: rest)).take 1 = [backtickChar] := by
      cases hu : stripFenceThree (c2 :: c3 :: rest) with
      | nil => rw [hu] at h; simp at h
      | cons u us => rw [hu] at h; simp at h ⊢; exact ⟨h.1, by simp [h.2]⟩
    have h2 : (c2 :: c3 :: rest).head? = some backtickChar :=
      stripFenceThree_head _ (take_one_eq_head.mp h1.2)
    simp at h2
    simp [h1.1, h2]
  | case3 c rest hshort ih =>
    intro h
    rw [stripFenceThree_short c rest hshort] at h
    have h1 : c = backtickChar ∧ (stripFenceThree rest).take 1 = [backtickChar] := by
      cases hu : stripFenceThree rest with
      | nil => rw [hu] at h; simp at h
      | cons u us => rw [hu] at h; simp at h ⊢; exact ⟨h.1, by simp [h.2]⟩
    have h2 : rest.head? = some backtickChar :=
      stripFenceThree_head _ (take_one_eq_head.mp h1.2)
    cases rest with
    | nil => simp at h2
    | cons d r2 =>
      simp at h2
      simp [h1.1, h2]
  | case4 =>
    intro h
    simp [stripFenceThree] at h

theorem hasTriple_stripFenceThree : ∀ s : List Char,
    hasTriple (stripFenceThree s) = false := by
  intro s
  induction s using stripFenceThree.induct with
  | case1 c1 c2 c3 rest hf ih =>
    rw [stripFenceThree, if_pos hf]
    exact ih
  | case2 c1 c2 c3 rest hf ih =>
    rw [stripFenceThree, if_neg hf]
    cases hu : stripFenceThree (c2 :: c3 :: rest) with
    | nil => simp [hasTriple]
    | cons u us =>
      cases us with
      | nil => simp [hasTriple]
      | cons v vs =>
        rw [hasTriple]
        rw [if_neg ?hne]
        · rw [← hu]; exact ih
        case hne =>
          intro hfc
          simp [isFenceThree] at hfc
          have htk : (stripFenceThree (c2 :: c3 :: rest)).take 2 =
              [backtickChar, backtickChar] := by
            rw [hu]; simp [hfc.1.2, hfc.2]
          have := stripFenceThree_take2 _ htk
          simp at this
          exact hf (by simp [isFenceThree, hfc.1.1, this.1, this.2])
  | case3 c rest hshort ih =>
    rw [stripFenceThree_short c rest hshort]
    cases hu : stripFenceThree rest with
    | nil => simp [hasTriple]
    | cons u us =>
      cases us with
      | nil => simp [hasTriple]
      | cons v vs =>
        rw [hasTriple]
        rw [if_neg ?hne2]
        · rw [← hu]; exact ih
        case hne2 =>
          intro hfc
          simp [isFenceThree] at hfc
          have htk : (stripFenceThree rest).take 2 = [backtickChar, backtickChar] := by
            rw [hu]; simp [hfc.1.2, hfc.2]
          have h2 := stripFenceThree_take2 _ htk
          cases rest with
          | nil => simp at h2
          | cons d r2 =>
            cases r2 with
            | nil => simp at h2
            | cons e r3 => exact hshort d e r3 rfl
  | case4 => simp [stripFenceThree, hasTriple]

theorem stripFenceThree_id_of_noTriple : ∀ s : List Char,
    hasTriple s = false → stripFenceThree s = s := by
  intro s
  induction s using stripFenceThree.induct with
  | case1 c1 c2 c3 rest hf ih =>
    intro h
    rw [hasTriple, if_pos hf] at h
    exact absurd h (by simp)
  | case2 c1 c2 c3 rest hf ih =>
    intro h
    rw [hasTriple, if_neg hf] at h
    rw [stripFenceThree, if_neg hf, ih h]
  | case3 c rest hshort ih =>
    intro h
    rw [stripFenceThree_short c rest hshort, ih (hasTriple_cons_false h)]
  | case4 => intro _; simp [stripFenceThree]

theorem stripFenceSql_id_of_noTriple : ∀ s : List Char,
    hasTriple s = false → stripFenceSql s = s := by
  intro s
  induction s using stripFenceSql.induct with
  | case1 c1 c2 c3 c4 c5 c6 rest hf ih =>
    intro h
    have hft : isFenceThree c1 c2 c3 = true := by
      have hb := hf
      simp [isFenceSqlSix] at hb
      simp [isFenceThree, hb.1.1.1.1.1, hb.1.1.1.1.2, hb.1.1.1.2]
    rw [hasTriple, if_pos hft] at h
    exact absurd h (by simp)
  | case2 c1 c2 c3 c4 c5 c6 rest hf ih =>
    intro h
    rw [stripFenceSql, if_neg hf, ih (hasTriple_cons_false h)]
  | case3 c rest hshort ih =>
    intro h
    rw [stripFenceSql_short c rest hshort, ih (hasTriple_cons_false h)]
  | case4 => intro _; simp [stripFenceSql]

end Routes

namespace Routes

theorem dropWhile_self (p : Char → Bool) (s : List Char) :
    (s.dropWhile p).dropWhile p = s.dropWhile p := by
  induction s with
  | nil => simp
  | cons c cs ih =>
    by_cases h : p c
    · simp [List.dropWhile_cons, h, ih]
    · simp [List.dropWhile_cons, h]

theorem dropWhile_decomp (p : Char → Bool) (s : List Char) :
    ∃ a, s = a ++ s.dropWhile p := by
  induction s with
  | nil => exact ⟨[], rfl⟩
  | cons c cs ih =>
    by_cases h : p c
    · rcases ih with ⟨a, ha⟩
      exact ⟨c :: a, by simp [List.dropWhile_cons, h, ← ha]⟩
    · exact ⟨[], by simp [List.dropWhile_cons, h]⟩

theorem trimR_decomp (s : List Char) : ∃ b, s = trimR s ++ b := by
  induction s with
  | nil => exact ⟨[], rfl⟩
  | cons c cs ih =>
    rcases ih with ⟨b, hb⟩
    by_cases h : trimR cs = [] ∧ isJsWhitespace c = true
    · refine ⟨c :: cs, ?_⟩
      rw [trimR, if_pos (by simp [h.1, h.2])]
      simp
    · refine ⟨b, ?_⟩
      rw [trimR, if_neg (by simpa using h)]
      simpa using hb

theorem trimR_idem (s : List Char) : trimR (trimR s) = trimR s := by
  induction s with
  | nil => simp [trimR]
  | cons c cs ih =>
    by_cases h : trimR cs = [] ∧ isJsWhitespace c = true
    · rw [trimR, if_pos (by simp [h.1, h.2])]
      simp [trimR]
    · rw [trimR, if_neg (by simpa using h)]
      rw [trimR, ih, if_neg (by simpa using h)]

theorem dropWhile_trimR_fix (s : List Char)
    (h : s.dropWhile isJsWhitespace = s) :
    (trimR s).dropWhile isJsWhitespace = trimR s := by
  cases s with
  | nil => simp [trimR]
  | cons c cs =>
    have hc : isJsWhitespace c = false := by
      by_contra hcc
      have hcc' : isJsWhitespace c = true := by simpa using hcc
      rw [List.dropWhile_cons, if_pos hcc'] at h
      have := congrArg List.length h
      have hle := length_dropWhile_le isJsWhitespace cs
      simp at this
      omega
    by_cases ht : trimR cs = [] ∧ isJsWhitespace c = true
    · rw [ht.2] at hc; exact absurd hc (by simp)
    · rw [trimR, if_neg (by simpa using ht)]
      simp [List.dropWhile_cons, hc]

theorem trimR_append_nonws (l r : List Char)
    (h : ∀ c ∈ l, isJsWhitespace c = false) :
    trimR (l ++ r) = l ++ trimR r := by
  induction l with
  | nil => simp
  | cons c cs ih =>
    have hc : isJsWhitespace c = false := h c (by simp)
    have ih2 := ih (fun d hd => h d (by simp [hd]))
    show trimR (c :: (cs ++ r)) = c :: (cs ++ trimR r)
    rw [trimR, ih2, if_neg (by simp [hc])]

theorem trimL_trim (s : List Char) : trimL (trim s) = trim s :=
  dropWhile_trimR_fix (trimL s) (dropWhile_self isJsWhitespace s)

theorem trimR_trim (s : List Char) : trimR (trim s) = trim s :=
  trimR_idem (trimL s)

theorem mem_of_getLast? : ∀ {s : List Char} {c : Char}, s.getLast? = some c → c ∈ s := by
  intro s
  induction s with
  | nil => intro c h; simp at h
  | cons d t ih =>
    intro c h
    cases t with
    | nil => simp at h; simp [h]
    | cons e t2 =>
      rw [List.getLast?_cons_cons] at h
      exact List.mem_cons_of_mem d (ih h)

theorem tts_append_no_semi (l r : List Char) (h : ';' ∉ l) :
    takeThroughSemi (l ++ r) = l ++ takeThroughSemi r := by
  induction l with
  | nil => simp
  | cons c cs ih =>
    have hc : c ≠ ';' := fun hcc => h (by simp [hcc])
    show takeThroughSemi (c :: (cs ++ r)) = c :: (cs ++ takeThroughSemi r)
    rw [takeThroughSemi, if_neg hc, ih (fun hm => h (by simp [hm]))]

theorem tts_id_of_no_semi (s : List Char) (h : ';' ∉ s) : takeThroughSemi s = s := by
  induction s with
  | nil => simp [takeThroughSemi]
  | cons c cs ih =>
    have hc : c ≠ ';' := fun hcc => h (by simp [hcc])
    rw [takeThroughSemi, if_neg hc, ih (fun hm => h (by simp [hm]))]

theorem tts_cases (s : List Char) :
    (takeThroughSemi s = s ∧ ';' ∉ takeThroughSemi s) ∨
      ∃ w, takeThroughSemi s = w ++ [';'] ∧ ';' ∉ w := by
  induction s with
  | nil => exact Or.inl ⟨rfl, by simp [takeThroughSemi]⟩
  | cons c cs ih =>
    by_cases hc : c = ';'
    · refine Or.inr ⟨[], ?_, by simp⟩
      rw [takeThroughSemi, if_pos hc, hc]
      simp
    · rcases ih with ⟨h1, h2⟩ | ⟨w, hw1, hw2⟩
      · refine Or.inl ⟨?_, ?_⟩
        · rw [takeThroughSemi, if_neg hc, h1]
        · rw [takeThroughSemi, if_neg hc, h1]
          intro hm
          rcases List.mem_cons.mp hm with he | hm2
          · exact hc he.symm
          · rw [← h1] at hm2; exact h2 hm2
      · refine Or.inr ⟨c :: w, ?_, ?_⟩
        · rw [takeThroughSemi, if_neg hc, hw1]
          simp
        · intro hm
          rcases List.mem_cons.mp hm with he | hm2
          · exact hc he.symm
          · exact hw2 hm2

theorem tts_decomp (s : List Char) : ∃ b, s = takeThroughSemi s ++ b := by
  induction s with
  | nil => exact ⟨[], rfl⟩
  | cons c cs ih =>
    by_cases hc : c = ';'
    · refine ⟨cs, ?_⟩
      rw [takeThroughSemi, if_pos hc]
      simp
    · rcases ih with ⟨b, hb⟩
      refine ⟨b, ?_⟩
      rw [takeThroughSemi, if_neg hc]
      simpa using hb

theorem dls_concat (w : List Char) : dropLastSemi (w ++ [';']) = w := by
  rw [dropLastSemi, if_pos (by simp), List.dropLast_concat]

theorem dls_id_of_no_semi (s : List Char) (h : ';' ∉ s) : dropLastSemi s = s := by
  rw [dropLastSemi, if_neg]
  intro hl
  exact h (mem_of_getLast? hl)

theorem findSelectSuffix_eq_some : ∀ {s t : List Char},
    findSelectSuffix s = some t → isSelectStart t = true ∧ ∃ a, s = a ++ t := by
  intro s
  induction s with
  | nil => intro t h; simp [findSelectSuffix] at h
  | cons c cs ih =>
    intro t h
    by_cases hs : isSelectStart (c :: cs) = true
    · rw [findSelectSuffix, if_pos hs] at h
      cases h
      exact ⟨hs, [], rfl⟩
    · rw [findSelectSuffix, if_neg hs] at h
      rcases ih h with ⟨h1, a, ha⟩
      exact ⟨h1, c :: a, by simp [ha]⟩

theorem select_char_facts {c : Char} (h : lowerChar c ∈ "select".toList) :
    isJsWhitespace c = false ∧ c ≠ ';' := by
  constructor
  · by_contra hws
    have hws' : isJsWhitespace c = true := by simpa using hws
    have hcodes := hws'
    simp only [isJsWhitespace, Bool.or_eq_true, decide_eq_true_eq] at hcodes
    have hup : isAsciiUpper c = false := by
      simp [isAsciiUpper]
      omega
    rw [lowerChar, if_neg (by simp [hup])] at h
    simp at h
    rcases h with rfl | rfl | rfl | rfl | rfl | rfl <;> simp_all
  · intro hc
    rw [hc, show lowerChar ';' = ';' by decide] at h
    simp at h

theorem isSelectStart_take_facts {t : List Char} (h : isSelectStart t = true) :
    lowerList (t.take 6) = "select".toList ∧
      (∀ c ∈ t.take 6, isJsWhitespace c = false) ∧ (';' ∉ t.take 6) := by
  have hlow : lowerList (t.take 6) = "select".toList := by
    simpa [isSelectStart] using h
  refine ⟨hlow, ?_, ?_⟩
  · intro c hc
    have : lowerChar c ∈ "select".toList := by
      rw [← hlow]
      exact List.mem_map_of_mem lowerChar hc
    exact (select_char_facts this).1
  · intro hc
    have : lowerChar ';' ∈ "select".toList := by
      rw [← hlow]
      exact List.mem_map_of_mem lowerChar hc
    exact (select_char_facts this).2 rfl

end Routes

namespace Routes

theorem stripAndTrim_noTriple (x : List Char) : hasTriple (stripAndTrim x) = false := by
  have h0 : hasTriple (stripFenceThree (stripFenceSql x)) = false :=
    hasTriple_stripFenceThree _
  rcases dropWhile_decomp isJsWhitespace (stripFenceThree (stripFenceSql x)) with ⟨a, ha⟩
  have ha' : stripFenceThree (stripFenceSql x) =
      a ++ trimL (stripFenceThree (stripFenceSql x)) := ha
  have h1 : hasTriple (trimL (stripFenceThree (stripFenceSql x))) = false := by
    apply hasTriple_infix (a := a) (b := [])
    rw [List.append_nil, ← ha']
    exact h0
  rcases trimR_decomp (trimL (stripFenceThree (stripFenceSql x))) with ⟨b, hb⟩
  apply hasTriple_infix (a := []) (b := b)
  rw [List.nil_append]
  show hasTriple (trimR (trimL (stripFenceThree (stripFenceSql x))) ++ b) = false
  rw [← hb]
  exact h1

theorem cleanSql_eq_trimR_of_shape (l6 w : List Char)
    (hlow : lowerList l6 = "select".toList)
    (hnws : ∀ c ∈ l6, isJsWhitespace c = false)
    (hT : hasTriple (l6 ++ w) = false)
    (hnsemi : ';' ∉ l6 ++ w) :
    cleanSql (l6 ++ w) = trimR (l6 ++ w) := by
  obtain ⟨c0, l6', rfl⟩ : ∃ c0 l6', l6 = c0 :: l6' := by
    cases l6 with
    | nil => simp [lowerList] at hlow
    | cons c0 l6' => exact ⟨c0, l6', rfl⟩
  have hsql : stripFenceSql ((c0 :: l6') ++ w) = (c0 :: l6') ++ w :=
    stripFenceSql_id_of_noTriple _ hT
  have h3 : stripFenceThree ((c0 :: l6') ++ w) = (c0 :: l6') ++ w :=
    stripFenceThree_id_of_noTriple _ hT
  have hc0 : isJsWhitespace c0 = false := hnws c0 (by simp)
  have htl : trimL ((c0 :: l6') ++ w) = (c0 :: l6') ++ w := by
    show trimL (c0 :: (l6' ++ w)) = c0 :: (l6' ++ w)
    simp [trimL, List.dropWhile_cons, hc0]
  have htr : trimR ((c0 :: l6') ++ w) = (c0 :: l6') ++ trimR w :=
    trimR_append_nonws _ _ hnws
  have hst : stripAndTrim ((c0 :: l6') ++ w) = (c0 :: l6') ++ trimR w := by
    show trim (stripFenceThree (stripFenceSql ((c0 :: l6') ++ w))) = _
    rw [hsql, h3]
    show trimR (trimL ((c0 :: l6') ++ w)) = _
    rw [htl, htr]
  have htake : ((c0 :: l6') ++ trimR w).take 6 = c0 :: l6' := by
    have hlen : (c0 :: l6').length = 6 := by
      have := congrArg List.length hlow
      simpa [lowerList] using this
    rw [← hlen]
    exact List.take_left _ _
  have hsel2 : isSelectStart ((c0 :: l6') ++ trimR w) = true := by
    simp only [isSelectStart, htake, hlow, decide_eq_true_eq]
  have hfs2 : findSelectSuffix ((c0 :: l6') ++ trimR w) = some ((c0 :: l6') ++ trimR w) := by
    have hsel2' : isSelectStart (c0 :: (l6' ++ trimR w)) = true := hsel2
    show findSelectSuffix (c0 :: (l6' ++ trimR w)) = _
    rw [findSelectSuffix]
    simp [hsel2']
  have hns2 : ';' ∉ (c0 :: l6') ++ trimR w := by
    intro hmem
    apply hnsemi
    rcases List.mem_append.mp hmem with hl | hr
    · exact List.mem_append.mpr (Or.inl hl)
    · rcases trimR_decomp w with ⟨b, hb⟩
      exact List.mem_append.mpr (Or.inr (by rw [hb]; exact List.mem_append.mpr (Or.inl hr)))
  show (match findSelectSuffix (stripAndTrim ((c0 :: l6') ++ w)) with
    | some suffix => dropLastSemi (takeThroughSemi suffix)
    | none => stripAndTrim ((c0 :: l6') ++ w)) = trimR ((c0 :: l6') ++ w)
  rw [hst, hfs2]
  show dropLastSemi (takeThroughSemi ((c0 :: l6') ++ trimR w)) = _
  rw [tts_id_of_no_semi _ hns2, dls_id_of_no_semi _ hns2, htr]

/-- C10 (amended): cleaning is idempotent only up to trailing whitespace —
a second application of `cleanSql` right-trims the first application's
output, so `clean ∘ clean = trimR ∘ clean`; on any input whose cleaned
output carries no trailing whitespace the second application is a no-op. -/
theorem cleanSql_cleanSql_eq_trimR (x : List Char) :
    cleanSql (cleanSql x) = trimR (cleanSql x) := by
  have hTc : hasTriple (stripAndTrim x) = false := stripAndTrim_noTriple x
  cases hfs : findSelectSuffix (stripAndTrim x) with
  | none =>
    have hx : cleanSql x = stripAndTrim x := by
      show (match findSelectSuffix (stripAndTrim x) with
        | some suffix => dropLastSemi (takeThroughSemi suffix)
        | none => stripAndTrim x) = stripAndTrim x
      rw [hfs]
    rw [hx]
    have hst : stripAndTrim (stripAndTrim x) = stripAndTrim x := by
      show trim (stripFenceThree (stripFenceSql (stripAndTrim x))) = stripAndTrim x
      rw [stripFenceSql_id_of_noTriple _ hTc, stripFenceThree_id_of_noTriple _ hTc]
      show trimR (trimL (trim (stripFenceThree (stripFenceSql x)))) =
        trim (stripFenceThree (stripFenceSql x))
      rw [trimL_trim, trimR_trim]
    have h2 : cleanSql (stripAndTrim x) = stripAndTrim x := by
      show (match findSelectSuffix (stripAndTrim (stripAndTrim x)) with
        | some suffix => dropLastSemi (takeThroughSemi suffix)
        | none => stripAndTrim (stripAndTrim x)) = stripAndTrim x
      rw [hst, hfs]
    rw [h2]
    show trim (stripFenceThree (stripFenceSql x)) =
      trimR (trim (stripFenceThree (stripFenceSql x)))
    rw [trimR_trim]
  | some suffix =>
    have hy : cleanSql x = dropLastSemi (takeThroughSemi suffix) := by
      show (match findSelectSuffix (stripAndTrim x) with
        | some suffix => dropLastSemi (takeThroughSemi suffix)
        | none => stripAndTrim x) = dropLastSemi (takeThroughSemi suffix)
      rw [hfs]
    obtain ⟨hsel, a, ha⟩ := findSelectSuffix_eq_some hfs
    obtain ⟨hlow, hnws, hnsemi⟩ := isSelectStart_take_facts hsel
    have hsplit : suffix.take 6 ++ suffix.drop 6 = suffix := List.take_append_drop 6 suffix
    have htts : takeThroughSemi suffix = suffix.take 6 ++ takeThroughSemi (suffix.drop 6) := by
      conv_lhs => rw [← hsplit]
      exact tts_append_no_semi _ _ hnsemi
    have key : ∃ w, dropLastSemi (takeThroughSemi suffix) = suffix.take 6 ++ w ∧
        (';' ∉ suffix.take 6 ++ w) ∧ ∃ b, suffix = (suffix.take 6 ++ w) ++ b := by
      rcases tts_cases (suffix.drop 6) with ⟨hid, hno⟩ | ⟨w, hw1, hw2⟩
      · have hno' : ';' ∉ suffix.drop 6 := by rw [← hid]; exact hno
        have hns : ';' ∉ suffix.take 6 ++ suffix.drop 6 := by
          intro hm
          rcases List.mem_append.mp hm with h1 | h1
          · exact hnsemi h1
          · exact hno' h1
        refine ⟨suffix.drop 6, ?_, hns, [], by simp [hsplit]⟩
        rw [htts, hid, dls_id_of_no_semi _ hns]
      · have hns : ';' ∉ suffix.take 6 ++ w := by
          intro hm
          rcases List.mem_append.mp hm with h1 | h1
          · exact hnsemi h1
          · exact hw2 h1
        rcases tts_decomp (suffix.drop 6) with ⟨b0, hb0⟩
        refine ⟨w, ?_, hns, [';'] ++ b0, ?_⟩
        · rw [htts, hw1, show suffix.take 6 ++ (w ++ [';']) =
            (suffix.take 6 ++ w) ++ [';'] by simp, dls_concat]
        · rw [← hsplit]
          conv_lhs => rw [hb0]
          rw [hw1]
          simp
      
    rcases key with ⟨w, hwEq, hwNs, b, hwDecomp⟩
    rw [hy, hwEq]
    have hT : hasTriple (suffix.take 6 ++ w) = false := by
      apply hasTriple_infix (a := a) (b := b)
      rw [show a ++ (suffix.take 6 ++ w) ++ b = a ++ ((suffix.take 6 ++ w) ++ b) by simp,
        ← hwDecomp, ← ha]
      exact hTc
    exact cleanSql_eq_trimR_of_shape _ _ hlow hnws hT hwNs

/-- C10 counterexample: `cleanSql` is not idempotent — on `"SELECT 1 ;"`
the first application yields `"SELECT 1 "` (with a trailing space left
behind by dropping the terminator) and the second application trims it. -/
theorem cleanSql_not_idempotent :
    cleanSql "SELECT 1 ;".toList = "SELECT 1 ".toList ∧
    cleanSql (cleanSql "SELECT 1 ;".toList) = "SELECT 1".toList ∧
    cleanSql (cleanSql "SELECT 1 ;".toList) ≠ cleanSql "SELECT 1 ;".toList := by
  decide

/-- C6 (amended): when the extraction pattern finds no `SELECT` run, the
cleaned output is the fence-stripped trimmed input itself, not the empty
string. -/
theorem cleanSql_of_no_select_run (s : List Char)
    (h : findSelectSuffix (stripAndTrim s) = none) :
    cleanSql s = stripAndTrim s := by
  show (match findSelectSuffix (stripAndTrim s) with
    | some suffix => dropLastSemi (takeThroughSemi suffix)
    | none => stripAndTrim s) = stripAndTrim s
  rw [h]

theorem cleanSql_of_no_select_run_witness :
    findSelectSuffix (stripAndTrim "DROP TABLE sales".toList) = none ∧
    cleanSql "DROP TABLE sales".toList = stripAndTrim "DROP TABLE sales".toList :=
  ⟨by decide, cleanSql_of_no_select_run _ (by decide)⟩

/-- C6 counterexample: a raw text with no `SELECT` run cleans to the
stripped text itself, which is not empty. -/
theorem cleanSql_no_select_not_empty :
    findSelectSuffix (stripAndTrim "UPDATE products SET stock = 0".toList) = none ∧
    cleanSql "UPDATE products SET stock = 0".toList =
      "UPDATE products SET stock = 0".toList ∧
    cleanSql "UPDATE products SET stock = 0".toList ≠ ([] : List Char) := by
  decide

end Routes

theorem toNat_charOfNat {n : Nat} (h1 : 97 ≤ n) (h2 : n ≤ 122) :
    (Char.ofNat n).toNat = n := by
  have hv : n.isValidChar := Or.inl (by omega)
  simp [Char.ofNat, hv, Char.ofNatAux, Char.toNat, UInt32.toNat, UInt32.ofNatCore]

theorem isAsciiUpper_lowerChar (c : Char) : isAsciiUpper (lowerChar c) = false := by
  by_cases h : isAsciiUpper c = true
  · have hn : 65 ≤ c.toNat ∧ c.toNat ≤ 90 := by simpa [isAsciiUpper] using h
    rw [lowerChar, if_pos h]
    have : (Char.ofNat (c.toNat + 32)).toNat = c.toNat + 32 :=
      toNat_charOfNat (by omega) (by omega)
    simp [isAsciiUpper, this]
    omega
  · rw [lowerChar, if_neg h]
    simpa using h

theorem lowerChar_idem (c : Char) : lowerChar (lowerChar c) = lowerChar c := by
  have h := isAsciiUpper_lowerChar c
  rw [show lowerChar (lowerChar c) =
    (if isAsciiUpper (lowerChar c) = true then Char.ofNat ((lowerChar c).toNat + 32)
      else lowerChar c) from rfl, h]
  simp

theorem lowerList_idem (s : List Char) : lowerList (lowerList s) = lowerList s := by
  simp only [lowerList, List.map_map]
  have : lowerChar ∘ lowerChar = lowerChar := funext lowerChar_idem
  rw [this]

namespace Routes

/-- Word-character test on an optional character: a position outside the
text behaves like a non-word character for the `\b` assertion. -/
def isWordCharOpt : Option Char → Bool
  | some c => isWordChar c
  | none => false

/-- JS regex `\b` assertion at position `p` of `text`: the word-ness of
the characters on either side of the position differs. -/
def boundaryAt (text : List Char) (p : Nat) : Bool :=
  isWordCharOpt (if p = 0 then none else text.get? (p - 1)) != isWordCharOpt (text.get? p)

/-- Case-insensitive literal match of `pat` at position `i` of `text`;
`escapeRegExp` in the source makes the interpolated name a literal, so the
escaped pattern matches exactly the name's characters. -/
def matchAtCI (pat text : List Char) (i : Nat) : Bool :=
  lowerList ((text.drop i).take pat.length) = lowerList pat

/-- Test of `new RegExp("\\b" + escapeRegExp(name) + "\\b", "i")` against
`text`: a case-insensitive occurrence flanked by word boundaries. -/
def testWordPattern (name text : List Char) : Bool :=
  (List.range (text.length + 1)).any fun i =>
    matchAtCI name text i && boundaryAt text i && boundaryAt text (i + name.length)

/-- Test of `new RegExp("\"" + escapeRegExp(name) + "\"", "i")` against
`text`: a case-insensitive occurrence wrapped in double quotes. -/
def testQuoted (name text : List Char) : Bool :=
  (List.range (text.length + 1)).any fun i => matchAtCI ('"' :: (name ++ ['"'])) text i

/-- Start-of-match test for the reserved-name pattern
`/\bdataset_[a-z0-9_]+\b/i` at position `i`: a boundary, the literal
`dataset_` case-insensitively, and at least one further word character
(the class `[a-z0-9_]` under the `i` flag is exactly `\w`, so the
trailing `\b` holds automatically at the end of the maximal run). -/
def datasetTokenAt (text : List Char) (i : Nat) : Bool :=
  boundaryAt text i && matchAtCI "dataset_".toList text i && isWordCharOpt (text.get? (i + 8))

/-- First position where the reserved-name pattern matches, if any. -/
def datasetTokenStart (text : List Char) : Option Nat :=
  (List.range (text.length + 1)).find? fun i => datasetTokenAt text i

/-- The text matched by the reserved-name pattern (original characters of
the first match, through the maximal word-character run). -/
def datasetTokenMatch (text : List Char) : Option (List Char) :=
  match datasetTokenStart text with
  | none => none
  | some i => some ((text.drop i).take 8 ++ (text.drop (i + 8)).takeWhile isWordChar)

/-- The `pickDuckdbTableFromSql` routine of `routes.ts`: `null` when no
analytic tables are known; otherwise the first known table occurring in
the query as a whole word or double-quoted, else the first
reserved-pattern match, else `null`. -/
def pickDuckdbTableFromSql (sqlText : List Char) (duckdbTables : List (List Char)) :
    Option (List Char) :=
  if duckdbTables.isEmpty then none
  else
    match duckdbTables.find? (fun t => testWordPattern t sqlText || testQuoted t sqlText) with
    | some t => some t
    | none => datasetTokenMatch sqlText

/-- Truthiness of the picked value as the route condition
`if (duckdbTable)`: the empty string is falsy in JS. -/
def routesToDuckdb (sqlText : List Char) (duckdbTables : List (List Char)) : Bool :=
  match pickDuckdbTableFromSql sqlText duckdbTables with
  | some t => !t.isEmpty
  | none => false

theorem datasetTokenMatch_ne_nil {text : List Char} {m : List Char}
    (h : datasetTokenMatch text = some m) : m ≠ [] := by
  rw [datasetTokenMatch] at h
  cases hs : datasetTokenStart text with
  | none => rw [hs] at h; simp at h
  | some i =>
    rw [hs] at h
    have hp : datasetTokenAt text i = true := by
      have := List.find?_some hs
      simpa using this
    have hm : matchAtCI "dataset_".toList text i = true := by
      simp [datasetTokenAt] at hp
      exact hp.1.2
    have hlen : ((text.drop i).take 8).length = 8 := by
      simp [matchAtCI] at hm
      have := congrArg List.length hm
      simpa [lowerList] using this
    simp at h
    intro hnil
    rw [← h] at hnil
    have := congrArg List.length hnil
    simp [hlen] at this

end Routes

namespace Routes

/-- C3 (amended): the router dispatches to the analytic engine iff the
known-table list is nonempty and either some known (nonempty) table name
occurs in the query as a whole word or double-quoted identifier, or no
known name matches and the query contains a reserved `dataset_…` token;
with an empty known-table list the reserved-pattern fallback is never
consulted and the query always goes to the relational engine. -/
theorem routesToDuckdb_iff (sqlText : List Char) (tables : List (List Char))
    (hne : ∀ t ∈ tables, t ≠ []) :
    routesToDuckdb sqlText tables = true ↔
      tables ≠ [] ∧
        ((∃ t ∈ tables, (testWordPattern t sqlText || testQuoted t sqlText) = true) ∨
          ((∀ t ∈ tables, (testWordPattern t sqlText || testQuoted t sqlText) = false) ∧
            datasetTokenMatch sqlText ≠ none)) := by
  by_cases hemp : tables.isEmpty
  · have : tables = [] := List.isEmpty_iff.mp hemp
    subst this
    simp [routesToDuckdb, pickDuckdbTableFromSql]
  · have htne : tables ≠ [] := by simpa [List.isEmpty_iff] using hemp
    cases hfind : tables.find? (fun t => testWordPattern t sqlText || testQuoted t sqlText) with
    | some t =>
      have hmem : t ∈ tables := List.mem_of_find?_eq_some hfind
      have hpt := List.find?_some hfind
      have hl : routesToDuckdb sqlText tables = true := by
        rw [routesToDuckdb, pickDuckdbTableFromSql, if_neg (by simp [hemp]), hfind]
        simp [List.isEmpty_iff, hne t hmem]
      rw [hl]
      simp only [true_iff]
      exact ⟨htne, Or.inl ⟨t, hmem, by simpa using hpt⟩⟩
    | none =>
      have hall : ∀ t ∈ tables, (testWordPattern t sqlText || testQuoted t sqlText) = false := by
        intro t ht
        have := List.find?_eq_none.mp hfind t ht
        simpa using this
      have hl : routesToDuckdb sqlText tables =
          match datasetTokenMatch sqlText with
          | some m => !m.isEmpty
          | none => false := by
        rw [routesToDuckdb, pickDuckdbTableFromSql, if_neg (by simp [hemp]), hfind]
      cases hm : datasetTokenMatch sqlText with
      | none =>
        rw [hl, hm]
        simp only [Bool.false_eq_true, false_iff]
        intro hcon
        rcases hcon with ⟨_, hdisj⟩
        rcases hdisj with ⟨t, ht, hpt⟩ | ⟨_, hne2⟩
        · rw [hall t ht] at hpt
          exact absurd hpt (by simp)
        · exact hne2 rfl
      | some m =>
        have hmne : m ≠ [] := datasetTokenMatch_ne_nil hm
        rw [hl, hm]
        constructor
        · intro _
          exact ⟨htne, Or.inr ⟨hall, by simp⟩⟩
        · intro _
          simp [List.isEmpty_iff, hmne]

end Routes

/-- C3 witness: a concrete nonempty table list whose double-quoted name
occurs in the query routes to the analytic engine, via the router
characterization. -/
theorem routesToDuckdb_iff_witness :
    (∀ t ∈ [("dataset_2_foo".toList)], t ≠ []) ∧
    (Routes.routesToDuckdb "SELECT * FROM \"dataset_2_foo\" LIMIT 5".toList
        [("dataset_2_foo".toList)] = true ↔
      [("dataset_2_foo".toList)] ≠ [] ∧
        ((∃ t ∈ [("dataset_2_foo".toList)],
            (Routes.testWordPattern t "SELECT * FROM \"dataset_2_foo\" LIMIT 5".toList ||
              Routes.testQuoted t "SELECT * FROM \"dataset_2_foo\" LIMIT 5".toList) = true) ∨
          ((∀ t ∈ [("dataset_2_foo".toList)],
            (Routes.testWordPattern t "SELECT * FROM \"dataset_2_foo\" LIMIT 5".toList ||
              Routes.testQuoted t "SELECT * FROM \"dataset_2_foo\" LIMIT 5".toList) = false) ∧
            Routes.datasetTokenMatch "SELECT * FROM \"dataset_2_foo\" LIMIT 5".toList ≠ none))) :=
  ⟨by decide, Routes.routesToDuckdb_iff _ _ (by decide)⟩

/-- C3 counterexample: with an empty known-table list the router returns
`null` and the query is sent to the relational engine even though the
query text contains a reserved `dataset_…` token, contradicting the
claimed fallback clause. -/
theorem pickDuckdbTable_empty_tables :
    Routes.pickDuckdbTableFromSql "SELECT * FROM dataset_1_foo".toList [] = none ∧
    Routes.datasetTokenMatch "SELECT * FROM dataset_1_foo".toList =
      some "dataset_1_foo".toList ∧
    Routes.routesToDuckdb "SELECT * FROM dataset_1_foo".toList [] = false := by
  decide

namespace Routes

/-- Keyword hints of `isDatasetQuestion` (dataset/CSV/upload/Excel/
spreadsheet, partly Korean). -/
def datasetHints : List (List Char) :=
  ["dataset".toList, "데이터셋".toList, "csv".toList,
    "업로드".toList, "엑셀".toList, "스프레드시트".toList]

/-- The `isDatasetQuestion` routine of `routes.ts`: `false` when no
dataset names are registered; otherwise `true` when a hint occurs in the
lowercased message, else when some (nonempty) dataset name occurs as a
whole word (regex on the lowered name) or as a plain substring. -/
def isDatasetQuestion (message : List Char) (datasetNames : List (List Char)) : Bool :=
  if datasetNames.isEmpty then false
  else if datasetHints.any (fun hint => occursIn hint (lowerList message)) then true
  else datasetNames.any fun name =>
    if name.isEmpty then false
    else testWordPattern (lowerList name) (lowerList message) ||
      occursIn (lowerList name) (lowerList message)

theorem occursIn_of_matchAtCI {pat text : List Char} {i : Nat}
    (hfix : lowerList text = text) (hpat : lowerList pat = pat)
    (hi : i < text.length + 1) (h : matchAtCI pat text i = true) :
    occursIn pat text = true := by
  have hm : lowerList ((text.drop i).take pat.length) = lowerList pat := by
    simpa [matchAtCI] using h
  have h1 : lowerList ((text.drop i).take pat.length) = (text.drop i).take pat.length := by
    show List.map lowerChar ((text.drop i).take pat.length) = _
    rw [List.map_take, List.map_drop]
    show ((lowerList text).drop i).take pat.length = _
    rw [hfix]
  rw [h1, hpat] at hm
  rw [occursIn]
  apply List.any_eq_true.mpr
  refine ⟨i, by simpa using hi, ?_⟩
  have : pat <+: text.drop i := List.prefix_iff_eq_take.mpr (by rw [hm])
  exact List.isPrefixOf_iff_prefix.mpr this

theorem occursIn_of_testWordPattern {name message : List Char}
    (h : testWordPattern (lowerList name) (lowerList message) = true) :
    occursIn (lowerList name) (lowerList message) = true := by
  rw [testWordPattern] at h
  rcases List.any_eq_true.mp h with ⟨i, hi, hcond⟩
  have hm : matchAtCI (lowerList name) (lowerList message) i = true := by
    simp only [Bool.and_eq_true] at hcond
    exact hcond.1.1
  exact occursIn_of_matchAtCI (lowerList_idem message) (lowerList_idem name)
    (by simpa [lowerList] using List.mem_range.mp hi) hm

/-- C9 (amended, classifier part): a question is classified data-related
iff at least one dataset is registered and the lowered question contains
a keyword hint or some registered (nonempty) dataset name as a
case-insensitive substring (a whole-word occurrence is a special case of
a substring occurrence). -/
theorem isDatasetQuestion_iff (message : List Char) (names : List (List Char)) :
    isDatasetQuestion message names = true ↔
      names ≠ [] ∧
        ((∃ hint ∈ datasetHints, occursIn hint (lowerList message) = true) ∨
          (∃ n ∈ names, n ≠ [] ∧ occursIn (lowerList n) (lowerList message) = true)) := by
  rw [isDatasetQuestion]
  by_cases hemp : names.isEmpty
  · have : names = [] := List.isEmpty_iff.mp hemp
    subst this
    simp
  · have htne : names ≠ [] := by simpa [List.isEmpty_iff] using hemp
    rw [if_neg (by simpa using hemp)]
    by_cases hhint : datasetHints.any (fun hint => occursIn hint (lowerList message)) = true
    · rw [if_pos hhint]
      simp only [true_iff]
      rcases List.any_eq_true.mp hhint with ⟨hint, hmem, hocc⟩
      exact ⟨htne, Or.inl ⟨hint, hmem, hocc⟩⟩
    · rw [if_neg hhint]
      constructor
      · intro h
        rcases List.any_eq_true.mp h with ⟨n, hn, hcond⟩
        have hne : ¬ n.isEmpty := by
          by_contra hc
          rw [if_pos (by simpa using hc)] at hcond
          exact absurd hcond (by simp)
        rw [if_neg hne] at hcond
        rcases Bool.or_eq_true .. |>.mp hcond with hw | ho
        · exact ⟨htne, Or.inr ⟨n, hn, by simpa using hne,
            occursIn_of_testWordPattern hw⟩⟩
        · exact ⟨htne, Or.inr ⟨n, hn, by simpa using hne, ho⟩⟩
      · intro ⟨_, hdisj⟩
        rcases hdisj with ⟨hint, hmem, hocc⟩ | ⟨n, hn, hnne, hocc⟩
        · exact absurd (List.any_eq_true.mpr ⟨hint, hmem, hocc⟩) hhint
        · apply List.any_eq_true.mpr
          refine ⟨n, hn, ?_⟩
          rw [if_neg (by simpa using hnne)]
          simp [hocc]

end Routes

namespace Routes

/-- Substring test between strings, the model of
`String.prototype.includes`. -/
def containsStr (hay needle : String) : Bool :=
  occursIn needle.toList hay.toList

/-- Lowercased string, the model of `String.prototype.toLowerCase`. -/
def lowerStr (s : String) : String :=
  String.mk (lowerList s.toList)

/-- The `getFallbackSql` routine of `routes.ts`: a deterministic canned
query keyed on keyword matches in the lowercased question.  The source's
early-return cascade (a nested `if` without a matching return falls
through to the next block) is transcribed as a single `if`/`else` chain
with the same evaluation order. -/
def getFallbackSql (message : String) : String :=
  let m := lowerStr message
  if containsStr m "매출" || containsStr m "revenue" || containsStr m "sales" then
    if containsStr m "총" || containsStr m "전체" || containsStr m "total" then
      "SELECT SUM(CAST(total_price AS DECIMAL)) as total_sales FROM sales"
    else
      "SELECT p.name, s.quantity, s.total_price, s.sale_date FROM sales s JOIN products p ON s.product_id = p.id ORDER BY s.sale_date DESC LIMIT 10"
  else if (containsStr m "카테고리" || containsStr m "category") &&
      (containsStr m "별" || containsStr m "group") then
    "SELECT category, COUNT(*) as count FROM products GROUP BY category ORDER BY count DESC"
  else if (containsStr m "가장" || containsStr m "top" || containsStr m "best") &&
      (containsStr m "비싼" || containsStr m "expensive") then
    "SELECT * FROM products ORDER BY CAST(price AS DECIMAL) DESC LIMIT 5"
  else if (containsStr m "가장" || containsStr m "top" || containsStr m "best") &&
      (containsStr m "저렴" || containsStr m "cheap") then
    "SELECT * FROM products ORDER BY CAST(price AS DECIMAL) ASC LIMIT 5"
  else if (containsStr m "가장" || containsStr m "top" || containsStr m "best") &&
      (containsStr m "팔린" || containsStr m "sold") then
    "SELECT p.name, SUM(s.quantity) as total_sold FROM products p JOIN sales s ON p.id = s.product_id GROUP BY p.id, p.name ORDER BY total_sold DESC LIMIT 5"
  else if (containsStr m "제품" || containsStr m "product") &&
      (containsStr m "몇" || containsStr m "count" || containsStr m "수") then
    "SELECT COUNT(*) as total_products FROM products"
  else if containsStr m "제품" || containsStr m "product" then
    "SELECT * FROM products ORDER BY CAST(price AS DECIMAL) DESC LIMIT 10"
  else
    "SELECT * FROM products ORDER BY id LIMIT 10"

/-- String-level wrapper of `cleanSql`. -/
def cleanSqlStr (s : String) : String :=
  String.mk (cleanSql s.toList)

/-- String-level wrapper of the validity check
`generatedSql.toLowerCase().startsWith('select')`. -/
def startsWithSelectCIStr (s : String) : Bool :=
  isSelectStart s.toList

/-- String-level wrapper of the dialect-router truthiness test. -/
def routesToDuckdbStr (sqlText : String) (duckdbTables : List String) : Bool :=
  routesToDuckdb sqlText.toList (duckdbTables.map String.toList)

/-- String-level wrapper of `isDatasetQuestion`. -/
def isDatasetQuestionStr (message : String) (datasetNames : List String) : Bool :=
  isDatasetQuestion message.toList (datasetNames.map String.toList)

/-- Substitution applied when the cleaned generation is invalid: the
single-dataset preview query when exactly one analytic table is known
(`duckdbTables[0]` under the length-1 guard, modelled by `headD`),
otherwise the keyword fallback. -/
def invalidFallback (duckdbTables : List String) (message : String) : String :=
  if duckdbTables.length = 1 then
    "SELECT * FROM \"" ++ duckdbTables.headD "" ++ "\" LIMIT 10"
  else getFallbackSql message

end Routes

namespace Routes

/-- Column metadata fields read by the schema builder (`name` and `type`
of the source's `ColumnInfo`). -/
structure ColumnInfo where
  name : String
  type : String
deriving DecidableEq, Repr

/-- A row of the `datasets` table as the schema builder consumes it.  The
stored `columnInfo` JSON string is modelled by its parse outcome:
`none` for a NULL column-info, `some (.ok cols)` for a string that
`JSON.parse` accepts, and `some (.error ())` for a malformed string on
which `JSON.parse` throws. -/
structure DatasetRow where
  id : Nat
  name : String
  dataType : String
  description : Option String
  fileName : String
  columnInfo : Option (Except Unit (List ColumnInfo))
  duckdbTable : Option String
deriving Repr

/-- JS `dataset.description || dataset.fileName` (empty string falsy). -/
def descOrFile (d : DatasetRow) : String :=
  match d.description with
  | some s => if s = "" then d.fileName else s
  | none => d.fileName

/-- DuckDB column type of an inferred semantic type. -/
def duckTypeOf (t : String) : String :=
  if t = "number" then "DOUBLE"
  else if t = "date" then "TIMESTAMP"
  else if t = "boolean" then "BOOLEAN"
  else "VARCHAR"

/-- PostgreSQL column type of an inferred semantic type (legacy branch). -/
def sqlTypeOf (t : String) : String :=
  if t = "number" then "NUMERIC"
  else if t = "date" then "TIMESTAMP"
  else if t = "boolean" then "BOOLEAN"
  else "TEXT"

/-- String-level wrapper of the introspector's column sanitizer. -/
def sanitizeDuckdbColumnNameStr (name : String) (index : Nat) : String :=
  String.mk (sanitizeDuckdbColumnName name.toList index)

/-- Description block for a DuckDB-backed structured dataset. -/
def duckdbBlock (d : DatasetRow) (tbl : String) (columns : List ColumnInfo) : String :=
  let colRows := String.join ((columns.enum).map fun ic =>
    "| " ++ sanitizeDuckdbColumnNameStr ic.2.name ic.1 ++ " | " ++ duckTypeOf ic.2.type ++ " |\n")
  let firstColumnName := match columns.head? with
    | some c => sanitizeDuckdbColumnNameStr c.name 0
    | none => "column"
  let numericLine := match columns.findIdx? (fun c => c.type = "number") with
    | some i =>
      let n := sanitizeDuckdbColumnNameStr ((columns.get? i).map ColumnInfo.name |>.getD "") i
      "- 합계/평균: SELECT SUM(\"" ++ n ++ "\") AS sum_value, AVG(\"" ++ n ++
        "\") AS avg_value FROM \"" ++ tbl ++ "\"\n"
    | none => ""
  "\n[DuckDB 테이블: " ++ tbl ++ "] - " ++ d.name ++ "\n" ++
  "설명: " ++ descOrFile d ++ " (DuckDB 고성능 분석용)\n" ++
  "| 컬럼명 | 타입 |\n" ++
  "|--------|------|\n" ++
  colRows ++
  "\n이 데이터셋 관련 질문은 \"" ++ tbl ++ "\" 테이블을 기준으로 DuckDB 쿼리를 작성하세요.\n" ++
  "쿼리 예시:\n" ++
  "- 전체 개수: SELECT COUNT(*) AS total_count FROM \"" ++ tbl ++ "\"\n" ++
  "- 샘플 조회: SELECT \"" ++ firstColumnName ++ "\" FROM \"" ++ tbl ++ "\" LIMIT 5\n" ++
  numericLine

/-- Description block for a legacy PostgreSQL-stored structured dataset. -/
def legacyBlock (d : DatasetRow) (columns : List ColumnInfo) : String :=
  let colRows := String.join (columns.map fun c =>
    "| " ++ c.name ++ " | " ++ sqlTypeOf c.type ++ " |\n")
  let col0 := match columns.head? with
    | some c => if c.name = "" then "column" else c.name
    | none => "column"
  "\n[structured_data 테이블에서 dataset_id = " ++ toString d.id ++ "] - " ++ d.name ++ "\n" ++
  "설명: " ++ descOrFile d ++ "\n" ++
  "| 컬럼명 | 타입 |\n" ++
  "|--------|------|\n" ++
  colRows ++
  "\n쿼리 예시: SELECT data->>\x27" ++ col0 ++ "\x27 as " ++ col0 ++
    " FROM structured_data WHERE dataset_id = " ++ toString d.id ++ "\n"

/-- Description block for an unstructured dataset. -/
def unstructuredBlock (d : DatasetRow) : String :=
  "\n[unstructured_data 테이블에서 dataset_id = " ++ toString d.id ++ "] - " ++ d.name ++ "\n" ++
  "설명: " ++ descOrFile d ++ " (비정형 텍스트 데이터, pgvector 지원)\n" ++
  "| 컬럼명 | 타입 | 설명 |\n" ++
  "|--------|------|------|\n" ++
  "| raw_content | TEXT | 원본 텍스트 |\n" ++
  "| search_text | TEXT | 검색용 텍스트 (소문자) |\n" ++
  "\n쿼리 예시: SELECT raw_content FROM unstructured_data WHERE dataset_id = " ++
    toString d.id ++ " AND search_text LIKE \x27%검색어%\x27\n"

/-- The built-in schema description `ENHANCED_SCHEMA` (fixed text). -/
def ENHANCED_SCHEMA : String :=
  "\n=== 데이터베이스 스키마 (PostgreSQL) ===\n\n" ++
  "[products 테이블] - 제품 정보\n" ++
  "| 컬럼명      | 타입           | 설명                                    |\n" ++
  "|-------------|----------------|----------------------------------------|\n" ++
  "| id          | SERIAL (PK)    | 제품 고유 번호                          |\n" ++
  "| name        | TEXT           | 제품명 (예: \"노트북\", \"무선 마우스\")      |\n" ++
  "| category    | TEXT           | 카테고리 (예: \"전자제품\", \"가전\", \"의류\") |\n" ++
  "| price       | NUMERIC        | 가격 (원 단위, 숫자형 - CAST 필요 시 사용)|\n" ++
  "| stock       | INTEGER        | 재고 수량                               |\n" ++
  "| description | TEXT           | 제품 상세 설명 (NULL 가능)              |\n\n" ++
  "[sales 테이블] - 판매 기록\n" ++
  "| 컬럼명      | 타입           | 설명                                    |\n" ++
  "|-------------|----------------|----------------------------------------|\n" ++
  "| id          | SERIAL (PK)    | 판매 고유 번호                          |\n" ++
  "| product_id  | INTEGER (FK)   | 제품 ID (→ products.id 참조)            |\n" ++
  "| quantity    | INTEGER        | 판매 수량                               |\n" ++
  "| total_price | NUMERIC        | 총 판매액 (원 단위)                     |\n" ++
  "| sale_date   | TIMESTAMP      | 판매 일시 (기본값: 현재 시간)           |\n\n" ++
  "[관계]\n" ++
  "- sales.product_id → products.id (다대일 관계: 하나의 제품에 여러 판매 기록)\n\n" ++
  "[참고사항]\n" ++
  "- price, total_price는 NUMERIC 타입으로, 정렬/계산 시 CAST(price AS DECIMAL) 권장\n" ++
  "- 날짜 필터: sale_date >= \x272024-01-01\x27 또는 DATE_TRUNC(\x27month\x27, sale_date)\n"

/-- Loop body of `buildDynamicSchema`.  The whole loop runs inside one
`try`/`catch`, so a `JSON.parse` failure (a `some (.error ())`
column-info) aborts the remaining iterations; the second component of the
result records whether the loop completed.  Dataset names are pushed
before the parse, so an aborting dataset still contributes its name. -/
def buildLoop : List DatasetRow → String → List String → List String → Bool → Bool →
    (String × List String × List String × Bool × Bool) × Bool
  | [], schema, tables, names, hS, hD => ((schema, tables, names, hS, hD), true)
  | d :: rest, schema, tables, names, hS, hD =>
    if d.dataType = "structured" ∧ d.columnInfo.isSome then
      let names' := if d.name = "" then names else names ++ [d.name]
      match d.columnInfo with
      | some (Except.error _) => ((schema, tables, names', hS, hD), false)
      | some (Except.ok columns) =>
        let tbl := d.duckdbTable.getD ""
        if tbl = "" then
          buildLoop rest (schema ++ legacyBlock d columns) tables names' true hD
        else
          buildLoop rest (schema ++ duckdbBlock d tbl columns) (tables ++ [tbl]) names' hS true
      | none => buildLoop rest schema tables names' hS hD
    else if d.dataType = "unstructured" then
      buildLoop rest (schema ++ unstructuredBlock d) tables names hS hD
    else
      buildLoop rest schema tables names hS hD

/-- The `buildDynamicSchema` routine of `routes.ts`: the base schema, a
header when datasets exist, one description block per dataset, and
trailing notes — with the whole dataset loop guarded by a single
`try`/`catch`, so a malformed column-info row truncates the description
at that dataset (the notes are also skipped on abort). -/
def buildDynamicSchema (uploadedDatasets : List DatasetRow) :
    String × List String × List String :=
  let base := ENHANCED_SCHEMA ++
    (if uploadedDatasets.length > 0 then "\n\n=== 사용자 업로드 데이터셋 ===\n" else "")
  match buildLoop uploadedDatasets base [] [] false false with
  | ((schema, tables, names, hS, hD), completed) =>
    if completed then
      (schema ++
        (if hS then "\n[참고] structured_data 정형 데이터는 JSON 형식으로 저장됨. data->>\x27컬럼명\x27으로 접근\n" else "") ++
        (if hD then "\n[참고] DuckDB 테이블은 PostgreSQL에서 직접 쿼리할 수 없습니다.\n" else ""),
        tables, names)
    else (schema, tables, names)

end Routes

namespace Routes

/-- Example datasets: a well-formed DuckDB-backed dataset, a dataset whose
stored column metadata fails to parse, and a second well-formed dataset. -/
def dsAlpha : DatasetRow :=
  { id := 1, name := "alpha", dataType := "structured", description := none,
    fileName := "alpha.csv", columnInfo := some (Except.ok [⟨"a", "number"⟩]),
    duckdbTable := some "dataset_1_alpha" }

/-- Dataset whose column metadata is malformed (`JSON.parse` throws). -/
def dsBeta : DatasetRow :=
  { id := 2, name := "beta", dataType := "structured", description := none,
    fileName := "beta.csv", columnInfo := some (Except.error ()),
    duckdbTable := some "dataset_2_beta" }

/-- A well-formed dataset listed after the malformed one. -/
def dsGamma : DatasetRow :=
  { id := 3, name := "gamma", dataType := "structured", description := none,
    fileName := "gamma.csv", columnInfo := some (Except.ok [⟨"c", "text"⟩]),
    duckdbTable := some "dataset_3_gamma" }

theorem buildLoop_malformed_ignores_rest (pre : List DatasetRow) (d : DatasetRow)
    (hd1 : d.dataType = "structured") (hd2 : d.columnInfo = some (Except.error ())) :
    ∀ (rest rest' : List DatasetRow) (schema : String) (tables names : List String)
      (hS hD : Bool),
      buildLoop (pre ++ d :: rest) schema tables names hS hD =
        buildLoop (pre ++ d :: rest') schema tables names hS hD := by
  induction pre with
  | nil =>
    intro rest rest' schema tables names hS hD
    show buildLoop (d :: rest) schema tables names hS hD =
      buildLoop (d :: rest') schema tables names hS hD
    simp [buildLoop, hd1, hd2]
  | cons p pre' ih =>
    intro rest rest' schema tables names hS hD
    show buildLoop (p :: (pre' ++ d :: rest)) schema tables names hS hD =
      buildLoop (p :: (pre' ++ d :: rest')) schema tables names hS hD
    rw [buildLoop, buildLoop]
    by_cases h1 : p.dataType = "structured" ∧ p.columnInfo.isSome
    · rw [if_pos h1, if_pos h1]
      cases hci : p.columnInfo with
      | none => rw [hci] at h1; simp at h1
      | some pc =>
        cases pc with
        | error e => rfl
        | ok columns =>
          by_cases h2 : p.duckdbTable.getD "" = ""
          · simp only [if_pos h2]
            exact ih _ _ _ _ _ _ _
          · simp only [if_neg h2]
            exact ih _ _ _ _ _ _ _
    · rw [if_neg h1, if_neg h1]
      by_cases h3 : p.dataType = "unstructured"
      · rw [if_pos h3, if_pos h3]
        exact ih _ _ _ _ _ _ _
      · rw [if_neg h3, if_neg h3]
        exact ih _ _ _ _ _ _ _

/-- C8: the schema builder does not skip only the malformed dataset — a
dataset whose column metadata fails to parse aborts the whole description
loop, so the datasets listed after it contribute nothing at all (neither
schema text nor analytic-table nor name entries): the output on
`pre ++ [bad] ++ rest` is identical to the output on `pre ++ [bad]`,
whatever `rest` holds. -/
theorem buildDynamicSchema_malformed_ignores_rest (pre : List DatasetRow)
    (d : DatasetRow) (rest rest' : List DatasetRow)
    (hd1 : d.dataType = "structured") (hd2 : d.columnInfo = some (Except.error ())) :
    buildDynamicSchema (pre ++ d :: rest) = buildDynamicSchema (pre ++ d :: rest') := by
  rw [buildDynamicSchema, buildDynamicSchema]
  have hbase : (pre ++ d :: rest).length > 0 ∧ (pre ++ d :: rest').length > 0 := by
    constructor <;> simp
  rw [if_pos hbase.1, if_pos hbase.2]
  rw [buildLoop_malformed_ignores_rest pre d hd1 hd2 rest rest' _ _ _ _ _]

/-- C8 witness: with the concrete three-dataset list, the dataset listed
after the malformed one is invisible — the builder returns exactly what
it returns without it. -/
theorem buildDynamicSchema_malformed_ignores_rest_witness :
    buildDynamicSchema [dsAlpha, dsBeta, dsGamma] = buildDynamicSchema [dsAlpha, dsBeta] :=
  buildDynamicSchema_malformed_ignores_rest [dsAlpha] dsBeta [dsGamma] [] rfl rfl

end Routes

namespace Routes

/-- Response body of the chat-SQL endpoint (HTTP status plus JSON body
fields); `Row` abstracts the engine's row representation. -/
structure ChatResponse (Row : Type) where
  status : Nat
  answer : String
  sql : String
  data : List Row
  error : Option String
deriving DecidableEq, Repr

/-- Environment of external collaborators of the chat-SQL handler: the
registered datasets, the generative provider (initial generation, repair
generation — `none` models a thrown provider error — and summarization /
general answering), and the two engines behind one attempt-indexed
`exec` function (the Boolean selects the analytic engine, as the route
does after consulting the dialect router). -/
structure ChatEnv (Row : Type) where
  datasets : List DatasetRow
  generate : String → String → String
  rawFix : Nat → String → String → Option String
  exec : Nat → Bool → String → Except String (List Row)
  summarize : String → String → List Row → String
  generalAnswer : String → String

/-- The fixed apologetic answer returned when the retry budget is
exhausted. -/
def apologyMessage : String :=
  "죄송합니다. 해당 질문에 대한 쿼리를 실행할 수 없습니다. 다른 방식으로 질문해 주시겠어요?"

/-- Schema text built for the environment's datasets. -/
def envSchema {Row : Type} (env : ChatEnv Row) : String :=
  (buildDynamicSchema env.datasets).1

/-- Analytic tables known for the environment's datasets. -/
def envTables {Row : Type} (env : ChatEnv Row) : List String :=
  (buildDynamicSchema env.datasets).2.1

/-- Dataset names known for the environment's datasets. -/
def envNames {Row : Type} (env : ChatEnv Row) : List String :=
  (buildDynamicSchema env.datasets).2.2

/-- The `fixSqlWithLLM` routine: ask the provider for a repaired query and
clean its output exactly as `cleanSql` does; when the provider call throws
(`none`), return the original query unchanged. -/
def fixSqlWithLLM {Row : Type} (env : ChatEnv Row) (attempt : Nat)
    (originalSql errorMessage : String) : String :=
  match env.rawFix attempt originalSql errorMessage with
  | none => originalSql
  | some raw => cleanSqlStr raw

/-- Fallback substitution inside the retry loop's catch block: the
single-table preview query when exactly one analytic table is known and
the failing query routed to the analytic engine, otherwise the keyword
fallback. -/
def fallbackAfterFailure (duckdbTables : List String) (message gen : String) : String :=
  if duckdbTables.length = 1 ∧ routesToDuckdbStr gen duckdbTables = true then
    "SELECT * FROM \"" ++ duckdbTables.headD "" ++ "\" LIMIT 10"
  else getFallbackSql message

/-- Query used for the next attempt after a failure: the repaired query
when it is nonempty and differs from the failing one, else the fallback. -/
def nextSql {Row : Type} (env : ChatEnv Row) (duckdbTables : List String)
    (message : String) (attempt : Nat) (gen errorMessage : String) : String :=
  let fixedSql := fixSqlWithLLM env attempt gen errorMessage
  if fixedSql ≠ "" ∧ fixedSql ≠ gen then fixedSql
  else fallbackAfterFailure duckdbTables message gen

/-- The retry loop of the chat-SQL route.  `attempt` is the loop index,
`fuel` the remaining repair retries (`MAX_RETRIES - attempt`); each
attempt re-runs the dialect router on the current query text and repairs
only while fuel remains. -/
def runQueryLoop {Row : Type} (env : ChatEnv Row) (duckdbTables : List String)
    (message : String) : Nat → Nat → String → String × Except String (List Row)
  | attempt, 0, gen =>
    match env.exec attempt (routesToDuckdbStr gen duckdbTables) gen with
    | Except.ok rows => (gen, Except.ok rows)
    | Except.error e => (gen, Except.error e)
  | attempt, fuel + 1, gen =>
    match env.exec attempt (routesToDuckdbStr gen duckdbTables) gen with
    | Except.ok rows => (gen, Except.ok rows)
    | Except.error e =>
      runQueryLoop env duckdbTables message (attempt + 1) fuel
        (nextSql env duckdbTables message attempt gen e)

/-- Number of engine executions the loop performs (same recursion). -/
def runQueryLoopCount {Row : Type} (env : ChatEnv Row) (duckdbTables : List String)
    (message : String) : Nat → Nat → String → Nat
  | attempt, 0, gen =>
    match env.exec attempt (routesToDuckdbStr gen duckdbTables) gen with
    | Except.ok _ => 1
    | Except.error _ => 1
  | attempt, fuel + 1, gen =>
    match env.exec attempt (routesToDuckdbStr gen duckdbTables) gen with
    | Except.ok _ => 1
    | Except.error e =>
      1 + runQueryLoopCount env duckdbTables message (attempt + 1) fuel
        (nextSql env duckdbTables message attempt gen e)

/-- The fixed retry budget (`MAX_RETRIES = 2` additional attempts). -/
def MAX_RETRIES : Nat := 2

/-- Query entering the execution loop: the cleaned generation, or the
invalid-generation fallback when it is empty or does not start with
`SELECT` (case-insensitively). -/
def initialSql {Row : Type} (env : ChatEnv Row) (message : String) : String :=
  let generatedSql := cleanSqlStr (env.generate message (envSchema env))
  if generatedSql = "" ∨ startsWithSelectCIStr generatedSql = false then
    invalidFallback (envTables env) message
  else generatedSql

/-- Response assembled from the loop outcome: a 200 apology carrying the
last query text and the last engine error on failure, a 200 summary with
the rows on success. -/
def responseFromLoop {Row : Type} (env : ChatEnv Row) (message gen1 : String) :
    ChatResponse Row :=
  match runQueryLoop env (envTables env) message 0 MAX_RETRIES gen1 with
  | (finalSql, Except.error e) =>
    { status := 200, answer := apologyMessage, sql := finalSql, data := [], error := some e }
  | (finalSql, Except.ok rows) =>
    { status := 200, answer := env.summarize message finalSql rows, sql := finalSql,
      data := rows, error := none }

/-- The POST chat-SQL handler: build the dynamic schema, gate on the
dataset-question classifier (general answer with empty `sql`/`data`
otherwise), generate and validate a query, and run the retry loop. -/
def chatSqlHandler {Row : Type} (env : ChatEnv Row) (message : String) : ChatResponse Row :=
  if isDatasetQuestionStr message (envNames env) = false then
    { status := 200, answer := env.generalAnswer message, sql := "", data := [], error := none }
  else responseFromLoop env message (initialSql env message)

/-- Query text attempted at each loop iteration (attempt `n`), assuming
every earlier attempt failed. -/
def sqlSeq {Row : Type} (env : ChatEnv Row) (duckdbTables : List String)
    (message gen1 : String) : Nat → String
  | 0 => gen1
  | n + 1 =>
    let g := sqlSeq env duckdbTables message gen1 n
    match env.exec n (routesToDuckdbStr g duckdbTables) g with
    | Except.ok _ => g
    | Except.error e => nextSql env duckdbTables message n g e

/-- Engine error message produced at attempt `n` (empty on success). -/
def errSeq {Row : Type} (env : ChatEnv Row) (duckdbTables : List String)
    (message gen1 : String) (n : Nat) : String :=
  match env.exec n (routesToDuckdbStr (sqlSeq env duckdbTables message gen1 n) duckdbTables)
      (sqlSeq env duckdbTables message gen1 n) with
  | Except.ok _ => ""
  | Except.error e => e

end Routes

namespace Routes

theorem runQueryLoop_all_fail {Row : Type} (env : ChatEnv Row) (tables : List String)
    (message : String)
    (hfail : ∀ a d s, ∃ e, env.exec a d s = Except.error e) (gen : String) :
    runQueryLoop env tables message 0 2 gen =
      (sqlSeq env tables message gen 2, Except.error (errSeq env tables message gen 2)) := by
  obtain ⟨e0, h0⟩ := hfail 0 (routesToDuckdbStr gen tables) gen
  obtain ⟨e1, h1⟩ := hfail 1
    (routesToDuckdbStr (nextSql env tables message 0 gen e0) tables)
    (nextSql env tables message 0 gen e0)
  obtain ⟨e2, h2⟩ := hfail 2
    (routesToDuckdbStr (nextSql env tables message 1 (nextSql env tables message 0 gen e0) e1)
      tables)
    (nextSql env tables message 1 (nextSql env tables message 0 gen e0) e1)
  have hs1 : sqlSeq env tables message gen 1 = nextSql env tables message 0 gen e0 := by
    simp [sqlSeq, h0]
  have hs2 : sqlSeq env tables message gen 2 =
      nextSql env tables message 1 (nextSql env tables message 0 gen e0) e1 := by
    simp [sqlSeq, h0, h1]
  have he2 : errSeq env tables message gen 2 = e2 := by
    rw [errSeq, hs2, h2]
  rw [hs2, he2]
  show runQueryLoop env tables message 0 (1 + 1) gen = _
  rw [runQueryLoop, h0]
  show runQueryLoop env tables message 1 (0 + 1) (nextSql env tables message 0 gen e0) = _
  rw [runQueryLoop, h1]
  show runQueryLoop env tables message 2 0
    (nextSql env tables message 1 (nextSql env tables message 0 gen e0) e1) = _
  rw [runQueryLoop, h2]

end Routes

namespace Routes

/-- C1: when the generated query fails on the initial attempt and on both
repair retries, the handler leaves the loop and returns HTTP 200 with the
fixed apologetic answer, the last attempted query text, the last engine
error, and an empty data list; the handler is a total function, so no
exception reaches the caller. -/
theorem chat_retry_exhausted {Row : Type} (env : ChatEnv Row) (message : String)
    (hq : isDatasetQuestionStr message (envNames env) = true)
    (hfail : ∀ a d s, ∃ e, env.exec a d s = Except.error e) :
    chatSqlHandler env message =
      { status := 200, answer := apologyMessage,
        sql := sqlSeq env (envTables env) message (initialSql env message) 2,
        data := [],
        error := some (errSeq env (envTables env) message (initialSql env message) 2) } := by
  rw [chatSqlHandler, if_neg (by simp [hq]), responseFromLoop,
    show MAX_RETRIES = 2 from rfl,
    runQueryLoop_all_fail env (envTables env) message hfail (initialSql env message)]

/-- Concrete environment: one DuckDB-backed dataset, a provider whose
repair call always throws, and engines that reject every query. -/
def envAllFail : ChatEnv Unit :=
  { datasets := [dsAlpha],
    generate := fun _ _ => "SELECT 9",
    rawFix := fun _ _ _ => none,
    exec := fun _ _ _ => Except.error "relation does not exist",
    summarize := fun _ _ _ => "ok",
    generalAnswer := fun _ => "general" }

theorem chat_retry_exhausted_witness :
    isDatasetQuestionStr "csv 데이터 개수" (envNames envAllFail) = true ∧
    chatSqlHandler envAllFail "csv 데이터 개수" =
      { status := 200, answer := apologyMessage,
        sql := sqlSeq envAllFail (envTables envAllFail) "csv 데이터 개수"
          (initialSql envAllFail "csv 데이터 개수") 2,
        data := [],
        error := some (errSeq envAllFail (envTables envAllFail) "csv 데이터 개수"
          (initialSql envAllFail "csv 데이터 개수") 2) } :=
  ⟨by decide, chat_retry_exhausted envAllFail "csv 데이터 개수" (by decide)
    (fun _ _ _ => ⟨"relation does not exist", rfl⟩)⟩

theorem runQueryLoopCount_all_fail {Row : Type} (env : ChatEnv Row) (tables : List String)
    (message : String)
    (hfail : ∀ a d s, ∃ e, env.exec a d s = Except.error e) (gen : String) :
    runQueryLoopCount env tables message 0 2 gen = 3 := by
  obtain ⟨e0, h0⟩ := hfail 0 (routesToDuckdbStr gen tables) gen
  obtain ⟨e1, h1⟩ := hfail 1
    (routesToDuckdbStr (nextSql env tables message 0 gen e0) tables)
    (nextSql env tables message 0 gen e0)
  obtain ⟨e2, h2⟩ := hfail 2
    (routesToDuckdbStr (nextSql env tables message 1 (nextSql env tables message 0 gen e0) e1)
      tables)
    (nextSql env tables message 1 (nextSql env tables message 0 gen e0) e1)
  show runQueryLoopCount env tables message 0 (1 + 1) gen = 3
  rw [runQueryLoopCount, h0]
  show 1 + runQueryLoopCount env tables message 1 (0 + 1)
    (nextSql env tables message 0 gen e0) = 3
  rw [runQueryLoopCount, h1]
  show 1 + (1 + runQueryLoopCount env tables message 2 0
    (nextSql env tables message 1 (nextSql env tables message 0 gen e0) e1)) = 3
  rw [runQueryLoopCount, h2]
  rfl

/-- C2 (amended): when the cleaned generation is empty or does not start
with `SELECT`, the fallback substitution (the single-table preview query
when exactly one analytic table is registered, otherwise the
keyword-matched fallback) replaces it before the loop starts, and the
substitution costs nothing: the loop still enters with the full budget of
2 repair retries, performing 3 engine attempts when every attempt fails. -/
theorem chat_invalid_generation {Row : Type} (env : ChatEnv Row) (message : String)
    (hq : isDatasetQuestionStr message (envNames env) = true)
    (hinv : cleanSqlStr (env.generate message (envSchema env)) = "" ∨
      startsWithSelectCIStr (cleanSqlStr (env.generate message (envSchema env))) = false) :
    chatSqlHandler env message =
      responseFromLoop env message (invalidFallback (envTables env) message) ∧
    (∀ (_ : ∀ a d s, ∃ e, env.exec a d s = Except.error e),
      runQueryLoopCount env (envTables env) message 0 MAX_RETRIES
        (invalidFallback (envTables env) message) = 3) := by
  constructor
  · rw [chatSqlHandler, if_neg (by simp [hq])]
    have hsub : initialSql env message = invalidFallback (envTables env) message := by
      rw [initialSql]
      exact if_pos hinv
    rw [hsub]
  · intro hfail
    rw [show MAX_RETRIES = 2 from rfl]
    exact runQueryLoopCount_all_fail env (envTables env) message hfail _

/-- Concrete environment whose generation is prose, not SQL. -/
def envInvalidGen : ChatEnv Unit :=
  { datasets := [dsAlpha],
    generate := fun _ _ => "죄송합니다. 답변할 수 없습니다.",
    rawFix := fun _ _ _ => none,
    exec := fun _ _ _ => Except.error "syntax error",
    summarize := fun _ _ _ => "ok",
    generalAnswer := fun _ => "general" }

theorem chat_invalid_generation_witness :
    isDatasetQuestionStr "csv 매출 보여줘" (envNames envInvalidGen) = true ∧
    (chatSqlHandler envInvalidGen "csv 매출 보여줘" =
      responseFromLoop envInvalidGen "csv 매출 보여줘"
        (invalidFallback (envTables envInvalidGen) "csv 매출 보여줘") ∧
    (∀ (_ : ∀ a d s, ∃ e, envInvalidGen.exec a d s = Except.error e),
      runQueryLoopCount envInvalidGen (envTables envInvalidGen) "csv 매출 보여줘" 0 MAX_RETRIES
        (invalidFallback (envTables envInvalidGen) "csv 매출 보여줘") = 3)) :=
  ⟨by decide, chat_invalid_generation envInvalidGen "csv 매출 보여줘" (by decide)
    (Or.inr (by decide))⟩

/-- C2 counterexample: with exactly one registered analytic table, the
invalid-generation substitution is the single-table preview query, not
the keyword-selected fallback the claim names. -/
theorem invalidFallback_single_table_counterexample :
    initialSql envInvalidGen "csv 매출 보여줘" =
      "SELECT * FROM \"dataset_1_alpha\" LIMIT 10" ∧
    getFallbackSql "csv 매출 보여줘" =
      "SELECT p.name, s.quantity, s.total_price, s.sale_date FROM sales s JOIN products p ON s.product_id = p.id ORDER BY s.sale_date DESC LIMIT 10" ∧
    initialSql envInvalidGen "csv 매출 보여줘" ≠ getFallbackSql "csv 매출 보여줘" := by
  decide

/-- C9 (amended): query generation is gated by the classifier, which is
`true` iff at least one dataset is registered and the question contains a
hint or a registered dataset name as a case-insensitive substring; when
the classifier says `false`, the handler answers generally with empty
`sql` and empty `data` and never touches generation or the engines. -/
theorem chatSql_topic_gate {Row : Type} (env : ChatEnv Row) (message : String) :
    (isDatasetQuestionStr message (envNames env) = true ↔
      (envNames env).map String.toList ≠ [] ∧
        ((∃ hint ∈ datasetHints, occursIn hint (lowerList message.toList) = true) ∨
          (∃ n ∈ (envNames env).map String.toList, n ≠ [] ∧
            occursIn (lowerList n) (lowerList message.toList) = true))) ∧
    (isDatasetQuestionStr message (envNames env) = false →
      chatSqlHandler env message =
        { status := 200, answer := env.generalAnswer message, sql := "", data := [],
          error := none }) := by
  constructor
  · exact isDatasetQuestion_iff message.toList ((envNames env).map String.toList)
  · intro h
    rw [chatSqlHandler, if_pos h]

/-- Environment with no registered datasets. -/
def envNoData : ChatEnv Unit :=
  { datasets := [],
    generate := fun _ _ => "",
    rawFix := fun _ _ _ => none,
    exec := fun _ _ _ => Except.error "x",
    summarize := fun _ _ _ => "s",
    generalAnswer := fun _ => "일반 답변" }

theorem chatSql_topic_gate_witness :
    chatSqlHandler envNoData "csv 파일 보여줘" =
      { status := 200, answer := envNoData.generalAnswer "csv 파일 보여줘", sql := "",
        data := [], error := none } :=
  (chatSql_topic_gate envNoData "csv 파일 보여줘").2 (by decide)

/-- C9 counterexample: a question carrying the `csv` hint is not treated
as data-related when no dataset is registered, and a dataset name
occurring only inside a longer word (not as a whole word) still makes the
classifier fire. -/
theorem isDatasetQuestion_counterexample :
    occursIn "csv".toList (lowerList "csv 파일 보여줘".toList) = true ∧
    "csv".toList ∈ datasetHints ∧
    isDatasetQuestionStr "csv 파일 보여줘" ([] : List String) = false ∧
    isDatasetQuestionStr "wholesale report" ["sale"] = true ∧
    testWordPattern (lowerList "sale".toList) (lowerList "wholesale report".toList) = false := by
  decide

end Routes
